import Mathlib

/-!
Verification of the CollapseTable library core against its design
specification.  The definitions below are a shallow embedding of the
source: the pure column-fit solver `computeHiddenColumns`, and the
per-table controller operations (refit, toggle, expand/collapse row,
destroy, attachment).  JavaScript numbers appearing in the solver are
integers in every code path that feeds it (measured widths go through
`Math.ceil`, priorities and hints through `Number` on integer
attributes), so they are embedded as `Int`.  DOM structure is embedded
as explicit state records; exceptions are embedded with `Except`.
-/

namespace CollapseTable

/-! ## Column data model

`ColMeta` is the element shape of the `columnsMeta` array handed to
`computeHiddenColumns` : `{index, min, priority, lock}`.  `Col` is the
solver-internal copy that adds the mutable `hidden` flag. -/

structure ColMeta where
  index    : Nat
  min      : Int
  priority : Int
  lock     : Bool
deriving Repr, DecidableEq

structure Col where
  index    : Nat
  min      : Int
  priority : Int
  lock     : Bool
  hidden   : Bool
deriving Repr, DecidableEq

/-- Forget the `hidden` flag of a solver-internal column. -/
def Col.meta (c : Col) : ColMeta :=
  ⟨c.index, c.min, c.priority, c.lock⟩

/-- The copy made at the top of `computeHiddenColumns`:
`cols = columnsMeta.map(c => ({index, min, priority, lock: !!c.lock, hidden: false}))`. -/
def initCols (meta : List ColMeta) : List Col :=
  meta.map (fun c => ⟨c.index, c.min, c.priority, c.lock, false⟩)

/-- Source: `sumMin = () => cols.filter(c => !c.hidden).reduce((s, c) => s + c.min, 0)`. -/
def sumMin (cols : List Col) : Int :=
  ((cols.filter (fun c => !c.hidden)).map Col.min).sum

/-- Generic positional update; `updAt l i f` applies `f` to the element at
position `i`, leaving the list unchanged when `i` is out of range. -/
def updAt {α : Type} : List α → Nat → (α → α) → List α
  | [], _, _ => []
  | x :: xs, 0, f => f x :: xs
  | x :: xs, n + 1, f => x :: updAt xs n f

/-- Set the `hidden` flag of the column at position `i`. -/
def setHidden (cols : List Col) (i : Nat) (b : Bool) : List Col :=
  updAt cols i (fun c => { c with hidden := b })

/-- Shrink-phase candidate filter:
`c => !c.hidden && !c.lock && c.index !== 0`. -/
def isCand (c : Col) : Bool :=
  !c.hidden && !c.lock && c.index != 0

/-- Source: `candLt a b` holds when `b` sorts strictly before `a` under the
shrink-phase comparator `(a, b) => b.priority - a.priority || b.min - a.min`
(higher priority first, then larger min). -/
def candLt (a b : Col) : Bool :=
  a.priority < b.priority || (a.priority == b.priority && a.min < b.min)

/-- Pair every element with its position, starting from `n`. -/
def idxL {α : Type} : Nat → List α → List (Nat × α)
  | _, [] => []
  | n, x :: xs => (n, x) :: idxL (n + 1) xs

/-- Fold step keeping the first-occurring maximum under `candLt`; this is
what the stable `sort(...)[0]` of the source selects. -/
def updBest (best : Option (Nat × Col)) (p : Nat × Col) : Option (Nat × Col) :=
  match best with
  | none => some p
  | some q => if candLt q.2 p.2 then some p else some q

/-- Position of the shrink-phase candidate
`cols.filter(visible unlock noncontrol).sort(by desc priority, desc min)[0]`,
or `none` when no candidate remains. -/
def pickIdx (cols : List Col) : Option Nat :=
  (((idxL 0 cols).filter (fun p => isCand p.2)).foldl updBest none).map Prod.fst

/-- Shrink phase: `guard = 200; while (sumMin() > available && guard-- > 0)`
hide the best candidate, `break` when none is left.  `fuel` is the guard. -/
def shrinkLoop (avail : Int) : Nat → List Col → List Col
  | 0, cols => cols
  | fuel + 1, cols =>
    if sumMin cols > avail then
      match pickIdx cols with
      | none => cols
      | some i => shrinkLoop avail fuel (setHidden cols i true)
    else cols

/-- Grow-phase sort key comparison on `(priority, min, position)` triples.
The position component makes the order total, which reproduces the
stability of the source's `sort((a, b) => a.priority - b.priority || a.min - b.min)`. -/
def keyLe (a b : Int × Int × Nat) : Bool :=
  a.1 < b.1 || (a.1 == b.1 && (a.2.1 < b.2.1 || (a.2.1 == b.2.1 && a.2.2 ≤ b.2.2)))

/-- Ordered insertion for `keyLe`. -/
def insertLe (x : Int × Int × Nat) : List (Int × Int × Nat) → List (Int × Int × Nat)
  | [] => [x]
  | y :: ys => if keyLe x y then x :: y :: ys else y :: insertLe x ys

/-- Insertion sort for `keyLe`. -/
def sortLe : List (Int × Int × Nat) → List (Int × Int × Nat)
  | [] => []
  | x :: xs => insertLe x (sortLe xs)

/-- Sort keys of the currently hidden columns: `(priority, min, position)`. -/
def hiddenTriples (cols : List Col) : List (Int × Int × Nat) :=
  ((idxL 0 cols).filter (fun p => p.2.hidden)).map
    (fun p => (p.2.priority, p.2.min, p.1))

/-- Positions of the hidden columns in the order the grow phase scans them:
`cols.filter(c => c.hidden).sort((a, b) => a.priority - b.priority || a.min - b.min)`. -/
def growOrder (cols : List Col) : List Nat :=
  (sortLe (hiddenTriples cols)).map (fun t => t.2.2)

/-- One step of the grow-phase scan for hidden position `i`:
`c.hidden = false; if (sumMin() <= available) changed = true; else c.hidden = true`. -/
def growStep (avail : Int) (acc : List Col × Bool) (i : Nat) : List Col × Bool :=
  let s1 := setHidden acc.1 i false
  if sumMin s1 ≤ avail then (s1, true) else (acc.1, acc.2)

/-- One grow-phase scan: tentatively unhide each hidden column in order,
keep it only if the new sum still fits, and record whether a change was
kept (`changed`). -/
def growPass (avail : Int) (cols : List Col) : List Col × Bool :=
  (growOrder cols).foldl (growStep avail) (cols, false)

/-- Grow phase: `guard = 200; changed = true; while (changed && guard-- > 0)`
repeat the scan. -/
def growLoop (avail : Int) : Nat → List Col → List Col
  | 0, cols => cols
  | fuel + 1, cols =>
    match growPass avail cols with
    | (cols1, changed) => if changed then growLoop avail fuel cols1 else cols1

/-- Full solver state after both phases of `computeHiddenColumns`. -/
def solveState (meta : List ColMeta) (avail : Int) : List Col :=
  growLoop avail 200 (shrinkLoop avail 200 (initCols meta))

/-- Source: `computeHiddenColumns(columnsMeta, available)`: the returned set
`new Set(cols.filter(c => c.hidden).map(c => c.index))`, embedded as the
list of hidden indices in column order. -/
def computeHiddenColumns (meta : List ColMeta) (avail : Int) : List Nat :=
  ((solveState meta avail).filter Col.hidden).map Col.index

/-! Concrete columns of spec scenarios A/B/C:
control(min 46, locked), A(priority 1, min 200, locked),
B(2, 160), C(3, 130), D(4, 120). -/

def scenarioCols : List ColMeta :=
  [⟨0, 46, 1, true⟩, ⟨1, 200, 1, true⟩, ⟨2, 160, 2, false⟩,
   ⟨3, 130, 3, false⟩, ⟨4, 120, 4, false⟩]

/-! ## Solver invariant predicates -/

/-- Invariant: every hidden column in the solver state is unlocked and
non-control. -/
def HidOK (l : List Col) : Prop :=
  ∀ c ∈ l, c.hidden = true → c.lock = false ∧ c.index ≠ 0

/-- Number of currently hidden columns. -/
def hiddenCount (l : List Col) : Nat :=
  l.countP (fun c => c.hidden)

/-- Minimality of a solver state: no single hidden column can be
restored without exceeding the available width. -/
def Minimal (avail : Int) (l : List Col) : Prop :=
  ∀ c ∈ l, c.hidden = true → avail < sumMin l + c.min

/-- Sum of min widths of the columns the solver can never hide
(locked or control); invariant across the whole run. -/
def nonHideableSum (l : List Col) : Int :=
  ((l.filter (fun c => c.lock || c.index == 0)).map Col.min).sum

/-- The same quantity on the input metadata. -/
def nonHideableSumMeta (meta : List ColMeta) : Int :=
  ((meta.filter (fun c => c.lock || c.index == 0)).map ColMeta.min).sum

/-- Survivor sum for an explicit hide/keep mask over the input columns:
the sum of min widths of the columns the mask does not hide. -/
def maskSurvivorSum (meta : List ColMeta) (mask : List Bool) : Int :=
  (((meta.zip mask).filter (fun p => !p.2)).map (fun p => p.1.min)).sum

/-- Columns refuting the unrestricted fit guarantee: a negative-width
hideable column lets a legitimate mask fit where the greedy
shrink/grow run does not. -/
def cexCols : List ColMeta :=
  [⟨0, 12, 1, true⟩, ⟨1, 10, 2, false⟩, ⟨2, -2, 3, false⟩, ⟨3, -2, 4, false⟩]

/-! ## Controller model

Shallow embedding of the per-table controller (`TableController`) state.
The DOM is embedded structurally: a details row is stored with its data
row (`DataRow.details`), so row collections contain only data rows —
this mirrors the source's `filter(r => !r.classList.contains(details))`
over `tbody.rows`.  The toggle button is embedded by its observable
state (`hasBtn`, `aria-expanded`, `style.visibility`).  Observers and
event listeners carry no table state and are not part of the model.
Available width is environment-supplied (`_availableWidth`) and is
passed as an argument. -/

structure Cell where
  isControl : Bool
  hideCls   : Bool
  html      : String
  text      : String
  labelAttr : Option String
  prioAttr  : Option Int
  minAttr   : Option Int
  spanOne   : Bool
deriving Repr, DecidableEq

inductive DetailsContent
  | empty
  | nodeContent (s : String)
  | htmlContent (s : String)
  | defaultList (items : List (String × String))
deriving Repr, DecidableEq

structure DetailsRow where
  hidden  : Bool
  content : DetailsContent
  colSpan : Nat
deriving Repr, DecidableEq

structure DataRow where
  cells       : List Cell
  hasBtn      : Bool
  btnExpanded : Bool
  btnVisible  : Bool
  details     : Option DetailsRow
deriving Repr, DecidableEq

structure Ctrl where
  rootClass        : Bool
  styleWidth       : Option String
  styleTableLayout : Option String
  headerCells      : List Cell
  tbodies          : List (List DataRow)
  columnsMeta      : List ColMeta
  insertedControl  : Bool
  unsupportedSpan  : Bool
  destroyed        : Bool
deriving Repr, DecidableEq

/-- Outcome of invoking the caller-supplied `detailsRender` hook: a DOM
`Node`, an HTML string, an unusable value (anything else, e.g.
`undefined`), or a thrown exception. -/
inductive RenderOutcome
  | node (s : String)
  | str (s : String)
  | unusable
  | raise (e : String)

/-- The options the modelled operations read. -/
structure Opts where
  controlWidth    : Int
  minWidthDefault : Int
  tableLayout     : String
  detailsRender   : Option (DataRow → List ColMeta → List Cell → RenderOutcome)

/-- Events emitted via `this.emit`. -/
inductive Ev
  | expandEv
  | collapseEv
  | toggleEv (expanded : Bool)
  | refitEv (initial : Bool) (anyHidden : Bool)
  | destroyEv
deriving Repr, DecidableEq

/-- Label of the header cell at column index `i`:
`(col.th.getAttribute(label) || col.th.textContent || "").trim()`.
The `th` reference held in `columnsMeta` is embedded positionally via
`col.index` into the header row. -/
def labelOf (s : Ctrl) (i : Nat) : String :=
  match s.headerCells.get? i with
  | some th =>
    (match th.labelAttr with
     | some l => if l = "" then th.text else l
     | none => th.text).trim
  | none => ""

/-- The default "name: value" list of `_renderDetailsForRow`: one entry
per hidden, non-control column, in column order. -/
def defaultItems (s : Ctrl) (hs : List Nat) (cells : List Cell) : List (String × String) :=
  (s.columnsMeta.filter (fun c => c.index != 0 && hs.contains c.index)).map
    (fun c =>
      let label := labelOf s c.index
      (if label = "" then "" else label ++ ": ",
       ((cells.get? c.index).map Cell.html).getD ""))

/-- Source: `this.columnsMeta.filter(c => hiddenSet.has(c.index) && c.index !== 0)`:
the hidden columns handed to a custom renderer. -/
def hiddenColsOf (s : Ctrl) (hs : List Nat) : List ColMeta :=
  s.columnsMeta.filter (fun c => hs.contains c.index && c.index != 0)

/-- Source: `_renderDetailsForRow(row, detailsRow, hiddenSet)`.  The inner
wrapper always exists for mounted rows, so the `if (!wrap) return`
guard is not reachable in the model.  The source has no `try`/`catch`
here: a throwing custom renderer propagates, which the `Except` error
captures (the partially mutated panel the exception leaves behind is
not tracked).  A custom renderer returning a `Node` or a string
replaces the content; any other return value falls through to the
default list. -/
def renderDetailsForRow (opts : Opts) (s : Ctrl) (row : DataRow)
    (d : DetailsRow) (hs : List Nat) : Except String DetailsRow :=
  match opts.detailsRender with
  | some f =>
    match f row (hiddenColsOf s hs) row.cells with
    | .raise e => .error e
    | .node n => .ok { d with content := .nodeContent n }
    | .str h => .ok { d with content := .htmlContent h }
    | .unusable => .ok { d with content := .defaultList (defaultItems s hs row.cells) }
  | none => .ok { d with content := .defaultList (defaultItems s hs row.cells) }

/-- Set the hide class of the cell at position `i` (no-op when the cell
does not exist, matching the `if (td)` guard). -/
def setHideClsAt (hide : Bool) (cells : List Cell) (i : Nat) : List Cell :=
  updAt cells i (fun c => { c with hideCls := hide })

/-- Source: `_applyVisibility` on one cell list: for each column of
`columnsMeta`, toggle the hide class on the cell at `col.index`. -/
def applyCellsVis (meta : List ColMeta) (hs : List Nat) (cells : List Cell) : List Cell :=
  meta.foldl (fun cs col => setHideClsAt (hs.contains col.index) cs col.index) cells

/-- Source: `_syncDetailsColspan` for one row: the details cell spans the
current header width. -/
def syncDetailsColspan (span : Nat) (row : DataRow) : DataRow :=
  match row.details with
  | some d => { row with details := some { d with colSpan := span } }
  | none => row

/-- Source: `_applyVisibility(hiddenSet)`: header and body cells get the hide
class per the hidden-set, then details column spans are re-synced. -/
def applyVisibility (hs : List Nat) (s : Ctrl) : Ctrl :=
  let s1 := { s with
    headerCells := applyCellsVis s.columnsMeta hs s.headerCells,
    tbodies := s.tbodies.map (fun (tb : List DataRow) => tb.map (fun (row : DataRow) =>
      { row with cells := applyCellsVis s.columnsMeta hs row.cells })) }
  { s1 with tbodies := s1.tbodies.map (fun (tb : List DataRow) => tb.map
      (syncDetailsColspan s1.headerCells.length)) }

/-- The button/details part of one row of `_updateTogglesVisibility`:
if the row has a toggle button, set its visibility and re-render an
open details panel against the new hidden-set. -/
def updateRowBtn (opts : Opts) (s : Ctrl) (anyHidden : Bool) (hs : List Nat)
    (row1 : DataRow) : Except String DataRow :=
  if !row1.hasBtn then .ok row1
  else
    let row2 := { row1 with btnVisible := anyHidden }
    match row2.details with
    | some d =>
      if !d.hidden && row2.btnExpanded then
        match renderDetailsForRow opts s row2 d hs with
        | .error e => .error e
        | .ok d1 => .ok { row2 with details := some d1 }
      else .ok row2
    | none => .ok row2

/-- The per-row part of `_updateTogglesVisibility`: hide/show the
control cell (position 0), then the button/details part above. -/
def updateRowToggles (opts : Opts) (s : Ctrl) (anyHidden : Bool) (hs : List Nat)
    (row : DataRow) : Except String DataRow :=
  updateRowBtn opts s anyHidden hs
    { row with cells := updAt row.cells 0 (fun c => { c with hideCls := !anyHidden }) }

/-- The header part of `_updateTogglesVisibility`: the control header
cell gets the hide class exactly when nothing is hidden. -/
def hideCtrlHeader (anyHidden : Bool) (s : Ctrl) : Ctrl :=
  { s with headerCells := updAt s.headerCells 0 (fun c => { c with hideCls := !anyHidden }) }

/-- Source: `_updateTogglesVisibility(anyHidden, hiddenSet)`: hide the whole
control column exactly when no non-control column is hidden. -/
def updateTogglesVisibility (opts : Opts) (anyHidden : Bool) (hs : List Nat)
    (s : Ctrl) : Except String Ctrl :=
  let s1 := hideCtrlHeader anyHidden s
  match s1.tbodies.mapM (fun (tb : List DataRow) => tb.mapM (updateRowToggles opts s1 anyHidden hs)) with
  | .error e => .error e
  | .ok tbs => .ok { s1 with tbodies := tbs }

/-- The metadata `_refit` hands to the solver:
`lock: c.index === 0 || c.priority === 1`. -/
def refitMeta (meta : List ColMeta) : List ColMeta :=
  meta.map (fun c => { c with lock := c.index == 0 || c.priority == 1 })

/-- Source: `_refit(initial)`: no-op in fit-unsupported mode; otherwise solve,
apply visibility, update toggles, and emit `refit`. -/
def refit (opts : Opts) (s : Ctrl) (avail : Int) (initial : Bool) :
    Except String (Ctrl × List Ev) :=
  if s.unsupportedSpan then .ok (s, [])
  else
    let hs := computeHiddenColumns (refitMeta s.columnsMeta) avail
    let s1 := applyVisibility hs s
    let anyHidden := hs.any (fun i => i != 0)
    match updateTogglesVisibility opts anyHidden hs s1 with
    | .error e => .error e
    | .ok s2 => .ok (s2, [.refitEv initial anyHidden])

/-- Row lookup by tbody/row position. -/
def getRow (s : Ctrl) (b r : Nat) : Option DataRow :=
  (s.tbodies.get? b).bind (fun tb => tb.get? r)

/-- Row replacement by tbody/row position. -/
def setRow (s : Ctrl) (b r : Nat) (row : DataRow) : Ctrl :=
  { s with tbodies := updAt s.tbodies b (fun tb => updAt tb r (fun _ => row)) }

/-- The hidden-set as `toggle` re-derives it from the header's hide
classes:
`new Set(columnsMeta.filter(c => c.th.classList.contains(hide)).map(c => c.index))`. -/
def headerHiddenSet (s : Ctrl) : List Nat :=
  (s.columnsMeta.filter
    (fun c => ((s.headerCells.get? c.index).map Cell.hideCls).getD false)).map ColMeta.index

/-- Source: `toggle(row)` for the data row at position `(b, r)`; `none`
addresses model the `!row` / missing-button / missing-details early
returns.  The collapse branch hides the panel and emits
`collapse, toggle`; the expand branch re-renders the panel against the
current hidden-set, shows it, and emits `expand, toggle`. -/
def toggle (opts : Opts) (s : Ctrl) (b r : Nat) : Except String (Ctrl × List Ev) :=
  match getRow s b r with
  | none => .ok (s, [])
  | some row =>
    if !row.hasBtn then .ok (s, [])
    else
      match row.details with
      | none => .ok (s, [])
      | some d =>
        if row.btnExpanded then
          .ok (setRow s b r
            { row with btnExpanded := false, details := some { d with hidden := true } },
            [.collapseEv, .toggleEv false])
        else
          match renderDetailsForRow opts s row d (headerHiddenSet s) with
          | .error e => .error e
          | .ok d1 =>
            .ok (setRow s b r
              { row with btnExpanded := true, details := some { d1 with hidden := false } },
              [.expandEv, .toggleEv true])

/-- A JavaScript number as far as row resolution can observe it.
`_resolveDataRow` first rejects anything failing `Number.isFinite`
(`nan`, `posInf`, `negInf`), then indexes an array; a finite
non-integer index (`nonIntFinite`, e.g. `2.5`) hits no array slot and
yields `undefined` just like an out-of-range integer, so its exact
value is irrelevant and is not carried.  Integer values are carried
exactly; the IEEE rounding of integers beyond 2^53 is not modelled — it
cannot change which row (if any) an index resolves to unless a table
had more than 2^53 rows. -/
inductive JsNum
  | nan
  | posInf
  | negInf
  | nonIntFinite
  | int (i : Int)
deriving Repr, DecidableEq

/-- JavaScript values that can reach `expandRow` / `collapseRow`;
`num .nan` is the `NaN` argument, `num (.int i)` an integral number. -/
inductive JVal
  | rowEl (b r : Nat)
  | num (n : JsNum)
  | str (s : String)
  | jsNull
  | undef
  | boolV (b : Bool)
deriving Repr, DecidableEq

/-- The characters `Number(string)` trims: ECMAScript WhiteSpace
(TAB, VT, FF, SP, NBSP, ZWNBSP and the Unicode space separators) and
LineTerminator (LF, CR, LS, PS). -/
def jsIsWhitespace (c : Char) : Bool :=
  c.toNat = 0x9 || c.toNat = 0xA || c.toNat = 0xB || c.toNat = 0xC ||
  c.toNat = 0xD || c.toNat = 0x20 || c.toNat = 0xA0 || c.toNat = 0x1680 ||
  (0x2000 ≤ c.toNat && c.toNat ≤ 0x200A) ||
  c.toNat = 0x2028 || c.toNat = 0x2029 || c.toNat = 0x202F ||
  c.toNat = 0x205F || c.toNat = 0x3000 || c.toNat = 0xFEFF

/-- Strip leading and trailing JavaScript whitespace. -/
def jsTrimChars (s : String) : List Char :=
  ((s.toList.dropWhile jsIsWhitespace).reverse.dropWhile jsIsWhitespace).reverse

/-- Value of one digit in the given base (decimal, hex, octal or
binary), `none` for a character that is not such a digit.  Code points:
digits occupy 48-57, the hex letters 97-102 (lower) and 65-70 (upper). -/
def digitVal (base : Nat) (c : Char) : Option Nat :=
  let n := c.toNat
  let v : Option Nat :=
    if 48 ≤ n ∧ n ≤ 57 then some (n - 48)
    else if 97 ≤ n ∧ n ≤ 102 then some (n - 87)
    else if 65 ≤ n ∧ n ≤ 70 then some (n - 55)
    else none
  v.bind (fun d => if d < base then some d else none)

/-- Value of a non-empty all-digit string in the given base; `none` if
empty or any character is not a digit of that base. -/
def digitsVal (base : Nat) (l : List Char) : Option Nat :=
  if l.isEmpty then none
  else l.foldl (fun acc c =>
    match acc, digitVal base c with
    | some n, some d => some (n * base + d)
    | _, _ => none) (some 0)

/-- Decimal value of a digit list (the caller guarantees digits, whose
code points start at 48). -/
def decDigitsNat (l : List Char) : Nat :=
  l.foldl (fun n c => 10 * n + c.toNat - 48) 0

/-- Finish a `StrDecimalLiteral` parse from integer digits, fraction
digits and the remaining characters (an optional exponent part).  The
value is `(intDs ++ fracDs) * 10 ^ (exponent - #fracDs)`; a negative
net exponent that does not divide out leaves a finite non-integer. -/
def decFinish (sign : Int) (intDs fracDs : List Char) (r : List Char) : JsNum :=
  let expOpt : Option Int :=
    match r with
    | [] => some 0
    | e :: rest =>
      if e = 'e' || e = 'E' then
        match rest with
        | '+' :: ds => (digitsVal 10 ds).map (fun n => (n : Int))
        | '-' :: ds => (digitsVal 10 ds).map (fun n => -(n : Int))
        | ds => (digitsVal 10 ds).map (fun n => (n : Int))
      else none
  match expOpt with
  | none => .nan
  | some e =>
    let M : Nat := decDigitsNat (intDs ++ fracDs)
    let E : Int := e - (fracDs.length : Int)
    if 0 ≤ E then .int (sign * (M : Int) * 10 ^ E.toNat)
    else
      let p : Nat := 10 ^ (-E).toNat
      if M % p = 0 then .int (sign * ((M / p : Nat) : Int)) else .nonIntFinite

/-- A `StrUnsignedDecimalLiteral`: `Infinity`, or digits with an
optional fraction and exponent (at least one digit somewhere). -/
def decUnsigned (sign : Int) (t : List Char) : JsNum :=
  if t = ['I', 'n', 'f', 'i', 'n', 'i', 't', 'y'] then
    if sign < 0 then .negInf else .posInf
  else
    let p1 := t.span Char.isDigit
    match p1.2 with
    | '.' :: rest =>
      let p2 := rest.span Char.isDigit
      if p1.1.isEmpty && p2.1.isEmpty then .nan
      else decFinish sign p1.1 p2.1 p2.2
    | r1 =>
      if p1.1.isEmpty then .nan else decFinish sign p1.1 [] r1

/-- A `StrDecimalLiteral`: optional sign then an unsigned literal. -/
def decSigned (t : List Char) : JsNum :=
  match t with
  | '+' :: rest => decUnsigned 1 rest
  | '-' :: rest => decUnsigned (-1) rest
  | t1 => decUnsigned 1 t1

/-- Source: `Number(string)` — the ECMAScript StringNumericLiteral
grammar: trimmed whitespace, the empty string is `0`, a signed decimal
literal with optional fraction and exponent (possibly `Infinity`), or
an unsigned `0x`/`0o`/`0b` non-decimal integer literal; anything else
is `NaN`.  Numeric separators are not part of this grammar
(`Number("1_0")` is `NaN`). -/
def parseJsNumber (s : String) : JsNum :=
  match jsTrimChars s with
  | [] => .int 0
  | '0' :: c :: rest =>
    if c = 'x' || c = 'X' then
      match digitsVal 16 rest with
      | some n => .int (n : Int)
      | none => .nan
    else if c = 'o' || c = 'O' then
      match digitsVal 8 rest with
      | some n => .int (n : Int)
      | none => .nan
    else if c = 'b' || c = 'B' then
      match digitsVal 2 rest with
      | some n => .int (n : Int)
      | none => .nan
    else decSigned ('0' :: c :: rest)
  | t => decSigned t

/-- Source: `Number(x)` on the modelled values: `Number(null) = 0`,
`Number(undefined) = NaN`, `Number(false) = 0`, `Number(true) = 1`. -/
def jsToNumber : JVal → JsNum
  | .rowEl _ _ => .nan
  | .num n => n
  | .str s => parseJsNumber s
  | .jsNull => .int 0
  | .undef => .nan
  | .boolV b => .int (if b then 1 else 0)

/-- Addresses of all data rows across all tbodies, in document order
(`this.tbodies.flatMap(tb => rows)` of `_resolveDataRow`). -/
def allRowAddrs (s : Ctrl) : List (Nat × Nat) :=
  ((idxL 0 s.tbodies).map (fun p => (idxL 0 p.2).map (fun q => (p.1, q.1)))).flatten

/-- The numeric arm of `_resolveDataRow`: `Number.isFinite` rejects
`NaN` and the infinities, a finite non-integer indexes no array slot,
and an integer indexes the flattened data-row list (negative and
out-of-range indices give `null`). -/
def resolveByIndex (s : Ctrl) (o : JsNum) : Option (Nat × Nat) :=
  match o with
  | .nan => none
  | .posInf => none
  | .negInf => none
  | .nonIntFinite => none
  | .int i => if i < 0 then none else (allRowAddrs s).get? i.toNat

/-- Source: `_resolveDataRow(rowOrIndex)`: a row element resolves to itself;
anything else is coerced to a number and used as an index. -/
def resolveDataRow (s : Ctrl) (v : JVal) : Option (Nat × Nat) :=
  match v with
  | .rowEl b r => some (b, r)
  | _ => resolveByIndex s (jsToNumber v)

/-- Source: `expandRow(rowOrIndex)`: resolve, then toggle only a collapsed row
that has a button.  A row-element address outside the modelled table
denotes a foreign element; mutating it does not touch this table's
state. -/
def expandRowOp (opts : Opts) (s : Ctrl) (v : JVal) : Except String (Ctrl × List Ev) :=
  match resolveDataRow s v with
  | none => .ok (s, [])
  | some (b, r) =>
    match getRow s b r with
    | none => .ok (s, [])
    | some row =>
      if row.hasBtn && !row.btnExpanded then toggle opts s b r else .ok (s, [])

/-- Source: `collapseRow(rowOrIndex)`: resolve, then toggle only an expanded
row that has a button. -/
def collapseRowOp (opts : Opts) (s : Ctrl) (v : JVal) : Except String (Ctrl × List Ev) :=
  match resolveDataRow s v with
  | none => .ok (s, [])
  | some (b, r) =>
    match getRow s b r with
    | none => .ok (s, [])
    | some row =>
      if row.hasBtn && row.btnExpanded then toggle opts s b r else .ok (s, [])

/-- Clear the hide class on the cells addressed by `columnsMeta`
(the unhide loops of `destroy`; header `th` references are embedded
positionally via `col.index`). -/
def clearHideAtIdx (meta : List ColMeta) (cells : List Cell) : List Cell :=
  meta.foldl (fun cs col => updAt cs col.index (fun c => { c with hideCls := false })) cells

/-- Source: `destroy()`: mark destroyed, disconnect observers (no table state),
unhide all cells, remove details rows and toggle buttons, remove the
control column again if this controller inserted it, and emit
`destroy`.  Note the method performs all of this unconditionally — it
never consults `_destroyed`. -/
def destroy (s : Ctrl) : Ctrl × List Ev :=
  let s1 := { s with destroyed := true }
  let s2 := { s1 with
    headerCells := clearHideAtIdx s1.columnsMeta s1.headerCells,
    tbodies := s1.tbodies.map (fun (tb : List DataRow) => tb.map (fun (row : DataRow) =>
      { row with cells := clearHideAtIdx s1.columnsMeta row.cells })) }
  let s3 := { s2 with tbodies := s2.tbodies.map (fun (tb : List DataRow) => tb.map (fun (r : DataRow) =>
    { r with details := none, hasBtn := false })) }
  let s4 :=
    if s3.insertedControl then
      { s3 with
        headerCells := s3.headerCells.drop 1,
        tbodies := s3.tbodies.map (fun (tb : List DataRow) => tb.map (fun (r : DataRow) =>
          { r with cells := r.cells.drop 1 })) }
    else s3
  (s4, [.destroyEv])

/-! ### Attachment (`_initOnce` and the facade's `set`) -/

/-- A table as `set` receives it, before a controller binds to it.
`theadRows = none` models a table with no `<thead>`. -/
structure HTable where
  rootClass        : Bool
  styleWidth       : Option String
  styleTableLayout : Option String
  theadRows        : Option (List (List Cell))
  tbodies          : List (List DataRow)
deriving Repr, DecidableEq

/-- A control cell as `_ensureControlColumn` / `_mountRowsInBody`
create it. -/
def mkControlCell : Cell :=
  { isControl := true, hideCls := false, html := "", text := "",
    labelAttr := none, prioAttr := none, minAttr := none, spanOne := true }

/-- Source: `_checkSpans`: any colspan/rowspan in header or body cells. -/
def checkSpans (hr : List Cell) (tbodies : List (List DataRow)) : Bool :=
  hr.any (fun c => !c.spanOne) ||
    tbodies.any (fun tb => tb.any (fun r => r.cells.any (fun c => !c.spanOne)))

/-- Source: `_buildColumns` over the (possibly control-extended) header row.
`env i` is the measured `Math.ceil(clientWidth || offsetWidth || 0)` of
the header cell at position `i`. -/
def buildColumns (opts : Opts) (env : Nat → Int) (hr : List Cell) : List ColMeta :=
  (idxL 0 hr).map (fun p =>
    let i := p.1
    let th := p.2
    let priority : Int := match th.prioAttr with
      | some v => v
      | none => if i = 0 then 1 else (i : Int) + 1
    let hinted : Int := (th.minAttr.getD 0)
    let measured : Int := if env i > 0 then env i else opts.minWidthDefault
    let min : Int := if i = 0 then opts.controlWidth
      else if hinted > 0 then hinted else measured
    ⟨i, min, priority, i == 0 || priority == 1⟩)

/-- Source: `_mountRowsInBody` for one data row: ensure a control cell at
position 0, a toggle button (created collapsed), and a hidden details
row spanning the header width.  Idempotent on already-mounted rows. -/
def mountRow (span : Nat) (row : DataRow) : DataRow :=
  let row1 :=
    if (row.cells.head?.map Cell.isControl).getD false then row
    else { row with cells := mkControlCell :: row.cells }
  let row2 :=
    if row1.hasBtn then row1
    else { row1 with hasBtn := true, btnExpanded := false, btnVisible := true }
  match row2.details with
  | some d => { row2 with details := some { d with colSpan := span } }
  | none => { row2 with details := some { hidden := true, content := .empty, colSpan := span } }

/-- Source: `_initOnce`, run by the `TableController` constructor.  The root
class and the inline width / table-layout styles are applied *before*
the header and body validations; a validation failure therefore throws
with those mutations already made (the error carries the mutated
table).  On success the controller state absorbs the table. -/
def initOnce (opts : Opts) (env : Nat → Int) (avail : Int) (t : HTable) :
    Except (String × HTable) (Ctrl × List Ev) :=
  let t1 : HTable := { t with
    rootClass := true,
    styleWidth := some (t.styleWidth.getD "100%"),
    styleTableLayout := some (t.styleTableLayout.getD opts.tableLayout) }
  match t1.theadRows with
  | none => .error ("CollapseTable: table <thead> with at least one <tr> is required.", t1)
  | some [] => .error ("CollapseTable: table <thead> with at least one <tr> is required.", t1)
  | some (hr :: _) =>
    if t1.tbodies.isEmpty then
      .error ("CollapseTable: table <tbody> is required.", t1)
    else
      let unsupported := checkSpans hr t1.tbodies
      let firstIsControl := (hr.head?.map Cell.isControl).getD false
      let hr1 := if firstIsControl then hr else mkControlCell :: hr
      let tbs1 :=
        if firstIsControl then t1.tbodies
        else t1.tbodies.map (fun (tb : List DataRow) => tb.map (fun (r : DataRow) =>
          { r with cells := mkControlCell :: r.cells }))
      let hr2 := hr1.map (fun c => { c with hideCls := false })
      let meta := buildColumns opts env hr2
      let tbs2 := tbs1.map (fun (tb : List DataRow) => tb.map (mountRow hr2.length))
      let s : Ctrl := {
        rootClass := t1.rootClass,
        styleWidth := t1.styleWidth,
        styleTableLayout := t1.styleTableLayout,
        headerCells := hr2,
        tbodies := tbs2,
        columnsMeta := meta,
        insertedControl := !firstIsControl,
        unsupportedSpan := unsupported,
        destroyed := false }
      match refit opts s avail true with
      | .error e => .error (e, t1)
      | .ok (s1, evs) => .ok (s1, evs)

/-- The fresh-attachment path of `CollapseTable.set`: the registry entry
is written only after the controller constructor returns normally, so a
constructor throw leaves the registry untouched. -/
def setFresh (reg : List (Nat × Ctrl)) (tid : Nat) (opts : Opts) (env : Nat → Int)
    (avail : Int) (t : HTable) :
    List (Nat × Ctrl) × Except (String × HTable) (Ctrl × List Ev) :=
  match initOnce opts env avail t with
  | .ok (c, evs) => (reg ++ [(tid, c)], .ok (c, evs))
  | .error e => (reg, .error e)

/-! ### Concrete instances used by witnesses and counterexamples -/

/-- The library's default options with no custom renderer. -/
def exOpts : Opts :=
  { controlWidth := 46, minWidthDefault := 140, tableLayout := "auto",
    detailsRender := none }

/-- A plain data cell. -/
def mkDataCell (txt : String) : Cell :=
  { isControl := false, hideCls := false, html := txt, text := txt,
    labelAttr := none, prioAttr := none, minAttr := none, spanOne := true }

/-- A control cell carrying the hide class — the state
`_updateTogglesVisibility` leaves when nothing is hidden. -/
def hiddenControlCell : Cell :=
  { mkControlCell with hideCls := true }

/-- A mounted, collapsed data row in a table where no column is hidden. -/
def exToggleRow : DataRow :=
  { cells := [hiddenControlCell, mkDataCell "Alice"], hasBtn := true,
    btnExpanded := false, btnVisible := false,
    details := some { hidden := true, content := .empty, colSpan := 2 } }

/-- A two-column controller state right after a refit pass that hid
nothing: the control column carries the hide class, the hidden-set
derived from header classes is `[0]` (no non-control index). -/
def exToggleCtrl : Ctrl :=
  { rootClass := true, styleWidth := some "100%", styleTableLayout := some "auto",
    headerCells := [hiddenControlCell, mkDataCell "Name"],
    tbodies := [[exToggleRow]],
    columnsMeta := [⟨0, 46, 1, true⟩, ⟨1, 140, 2, false⟩],
    insertedControl := true, unsupportedSpan := false, destroyed := false }

/-- Source: `exToggleRow` after `toggle` expanded it: panel shown with an empty
default list. -/
def exToggleRowAfter : DataRow :=
  { exToggleRow with
    btnExpanded := true,
    details := some { hidden := false, content := .defaultList [], colSpan := 2 } }

/-- Source: `exToggleCtrl` after `toggle` ran on its only row: expanded, panel
shown with an empty default list, `expand` and `toggle` emitted. -/
def exToggleAfter : Ctrl :=
  { exToggleCtrl with tbodies := [[exToggleRowAfter]] }

/-- Options whose custom renderer returns an unusable value. -/
def unusableOpts : Opts :=
  { exOpts with detailsRender := some (fun _ _ _ => .unusable) }

/-- Options whose custom renderer throws. -/
def throwingOpts : Opts :=
  { exOpts with detailsRender := some (fun _ _ _ => .raise "boom") }

/-- A table with a body but no `thead`, not yet carrying the root class
or inline styles. -/
def noHeadRow : DataRow :=
  { cells := [mkDataCell "Alice"], hasBtn := false, btnExpanded := false,
    btnVisible := false, details := none }

def noHeadTable : HTable :=
  { rootClass := false, styleWidth := none, styleTableLayout := none,
    theadRows := none, tbodies := [[noHeadRow]] }

/-- Source: `noHeadTable` as the failed attachment leaves it: root class added,
inline styles set. -/
def noHeadAfter : HTable :=
  { noHeadTable with
    rootClass := true,
    styleWidth := some "100%",
    styleTableLayout := some "auto" }

/-- A controller that inserted the control column, after teardown of
its visual state would be legitimate. -/
def exDestroyRow : DataRow :=
  { cells := [mkControlCell, mkDataCell "Alice"], hasBtn := true,
    btnExpanded := false, btnVisible := true,
    details := some { hidden := true, content := .empty, colSpan := 2 } }

def exDestroyCtrl : Ctrl :=
  { rootClass := true, styleWidth := some "100%", styleTableLayout := some "auto",
    headerCells := [mkControlCell, mkDataCell "Name"],
    tbodies := [[exDestroyRow]],
    columnsMeta := [⟨0, 46, 1, true⟩, ⟨1, 140, 2, false⟩],
    insertedControl := true, unsupportedSpan := false, destroyed := false }

/-! ### Values produced by the expand branch of `toggle` -/

/-- The details row the expand branch of `toggle` produces. -/
def expandedDetails (s : Ctrl) (row : DataRow) (d : DetailsRow) : DetailsRow :=
  { d with
    content := .defaultList (defaultItems s (headerHiddenSet s) row.cells),
    hidden := false }

/-- The data row the expand branch of `toggle` produces. -/
def expandedRow (s : Ctrl) (row : DataRow) (d : DetailsRow) : DataRow :=
  { row with btnExpanded := true, details := some (expandedDetails s row d) }

example : computeHiddenColumns scenarioCols 500 = [3, 4] := by decide
example : computeHiddenColumns scenarioCols 700 = [] := by decide

/-- Claim C4.  Overflow-accepted scenario C of the spec: at
`available = 240` the solver hides exactly B, C, D (indices 2, 3, 4),
the surviving locked columns sum to 246 > 240, and the solver stops
without error, accepting the overflow rather than hiding a locked
column. -/
theorem overflow_accepted_scenario :
    computeHiddenColumns scenarioCols 240 = [2, 3, 4] ∧
    sumMin (solveState scenarioCols 240) = 246 ∧
    240 < sumMin (solveState scenarioCols 240) := by decide

/-! ## Basic lemmas about the solver's building blocks -/

theorem length_updAt {α : Type} (l : List α) (i : Nat) (f : α → α) :
    (updAt l i f).length = l.length := by
  induction l generalizing i with
  | nil => rfl
  | cons x xs ih =>
    cases i with
    | zero => rfl
    | succ n => simpa [updAt] using ih n

theorem get?_updAt_self {α : Type} (l : List α) (i : Nat) (f : α → α) :
    (updAt l i f).get? i = (l.get? i).map f := by
  induction l generalizing i with
  | nil => cases i <;> rfl
  | cons x xs ih =>
    cases i with
    | zero => rfl
    | succ n => simpa [updAt] using ih n

theorem get?_updAt_ne {α : Type} (l : List α) (i j : Nat) (f : α → α)
    (h : j ≠ i) : (updAt l i f).get? j = l.get? j := by
  induction l generalizing i j with
  | nil => cases i <;> rfl
  | cons x xs ih =>
    cases i with
    | zero =>
      cases j with
      | zero => exact absurd rfl h
      | succ m => rfl
    | succ n =>
      cases j with
      | zero => rfl
      | succ m => simpa [updAt] using ih n m (fun hc => h (by omega))

theorem mem_updAt {α : Type} {l : List α} {i : Nat} {f : α → α} {x : α}
    (hx : x ∈ updAt l i f) :
    x ∈ l ∨ ∃ y, l.get? i = some y ∧ x = f y := by
  induction l generalizing i with
  | nil => simp [updAt] at hx
  | cons c cs ih =>
    cases i with
    | zero =>
      rcases List.mem_cons.mp hx with h | h
      · exact Or.inr ⟨c, rfl, h⟩
      · exact Or.inl (List.mem_cons_of_mem _ h)
    | succ n =>
      rcases List.mem_cons.mp hx with h | h
      · exact Or.inl (h ▸ List.mem_cons_self _ _)
      · rcases ih h with h1 | ⟨y, hy, hxy⟩
        · exact Or.inl (List.mem_cons_of_mem _ h1)
        · exact Or.inr ⟨y, hy, hxy⟩

theorem sumMin_cons (c : Col) (cs : List Col) :
    sumMin (c :: cs) = (if c.hidden then 0 else c.min) + sumMin cs := by
  by_cases h : c.hidden = true <;> simp [sumMin, h]

theorem mem_setHidden {l : List Col} {i : Nat} {b : Bool} {x : Col}
    (hx : x ∈ setHidden l i b) :
    x ∈ l ∨ ∃ y, l.get? i = some y ∧ x = { y with hidden := b } := by
  exact mem_updAt hx

theorem sumMin_setHidden_false {l : List Col} {i : Nat} {c : Col}
    (hg : l.get? i = some c) (hc : c.hidden = true) :
    sumMin (setHidden l i false) = sumMin l + c.min := by
  induction l generalizing i with
  | nil => simp at hg
  | cons x xs ih =>
    cases i with
    | zero =>
      obtain rfl : x = c := by simpa using hg
      simp [setHidden, updAt, sumMin_cons, hc]
      try ring
    | succ n =>
      have hg2 : xs.get? n = some c := by simpa using hg
      have := ih hg2
      simp only [setHidden, updAt] at this ⊢
      rw [sumMin_cons, sumMin_cons, this]
      ring

theorem sumMin_setHidden_true {l : List Col} {i : Nat} {c : Col}
    (hg : l.get? i = some c) (hc : c.hidden = false) :
    sumMin (setHidden l i true) = sumMin l - c.min := by
  induction l generalizing i with
  | nil => simp at hg
  | cons x xs ih =>
    cases i with
    | zero =>
      obtain rfl : x = c := by simpa using hg
      simp [setHidden, updAt, sumMin_cons, hc]
      try ring
    | succ n =>
      have hg2 : xs.get? n = some c := by simpa using hg
      have := ih hg2
      simp only [setHidden, updAt] at this ⊢
      rw [sumMin_cons, sumMin_cons, this]
      ring

theorem mem_idxL_get? {α : Type} {n : Nat} {l : List α} {p : Nat × α}
    (hp : p ∈ idxL n l) : n ≤ p.1 ∧ l.get? (p.1 - n) = some p.2 := by
  induction l generalizing n with
  | nil => simp [idxL] at hp
  | cons x xs ih =>
    rcases List.mem_cons.mp hp with h | h
    · subst h; simp
    · obtain ⟨h1, h2⟩ := ih h
      refine ⟨by omega, ?_⟩
      have hpos : p.1 - n = (p.1 - (n + 1)) + 1 := by omega
      rw [hpos]
      simpa using h2

theorem get?_mem_idxL {α : Type} {l : List α} {k : Nat} {x : α}
    (h : l.get? k = some x) (n : Nat) : (n + k, x) ∈ idxL n l := by
  induction l generalizing k n with
  | nil => simp at h
  | cons c cs ih =>
    cases k with
    | zero =>
      obtain rfl : c = x := by simpa using h
      simp [idxL]
    | succ m =>
      have h2 : cs.get? m = some x := by simpa using h
      have := ih h2 (n + 1)
      have heq : n + (m + 1) = (n + 1) + m := by omega
      rw [heq]
      exact List.mem_cons_of_mem _ this

theorem map_snd_idxL {α : Type} (n : Nat) (l : List α) :
    (idxL n l).map Prod.snd = l := by
  induction l generalizing n with
  | nil => rfl
  | cons x xs ih => simp [idxL, ih]

theorem filter_map_snd_idxL {α : Type} (n : Nat) (l : List α) (q : α → Bool) :
    ((idxL n l).filter (fun p => q p.2)).map Prod.snd = l.filter q := by
  induction l generalizing n with
  | nil => rfl
  | cons x xs ih =>
    by_cases h : q x = true <;> simp [idxL, List.filter_cons, h, ih]

theorem foldl_updBest_some {l : List (Nat × Col)} {q0 q : Nat × Col}
    (h : l.foldl updBest (some q0) = some q) : q = q0 ∨ q ∈ l := by
  induction l generalizing q0 with
  | nil => exact Or.inl (by simpa using h.symm)
  | cons p ps ih =>
    simp only [List.foldl_cons] at h
    by_cases hlt : candLt q0.2 p.2 = true
    · rcases ih (by simpa [updBest, hlt] using h) with h1 | h1
      · exact Or.inr (h1 ▸ List.mem_cons_self _ _)
      · exact Or.inr (List.mem_cons_of_mem _ h1)
    · rcases ih (by simpa [updBest, hlt] using h) with h1 | h1
      · exact Or.inl h1
      · exact Or.inr (List.mem_cons_of_mem _ h1)

theorem foldl_updBest_ne_none {l : List (Nat × Col)} (q0 : Nat × Col) :
    l.foldl updBest (some q0) ≠ none := by
  induction l generalizing q0 with
  | nil => simp
  | cons p ps ih =>
    simp only [List.foldl_cons, updBest]
    by_cases hlt : candLt q0.2 p.2 = true <;> simp [hlt, ih]

theorem pickIdx_eq_none {l : List Col} :
    pickIdx l = none ↔ l.filter isCand = [] := by
  unfold pickIdx
  constructor
  · intro h
    have hfold : ((idxL 0 l).filter (fun p => isCand p.2)).foldl updBest none = none := by
      rcases hmatch : ((idxL 0 l).filter (fun p => isCand p.2)).foldl updBest none with _ | q
      · exact hmatch
      · simp [hmatch] at h
    have hnil : (idxL 0 l).filter (fun p => isCand p.2) = [] := by
      rcases hl : (idxL 0 l).filter (fun p => isCand p.2) with _ | ⟨p, ps⟩
      · exact hl
      · rw [hl] at hfold
        simp only [List.foldl_cons, updBest] at hfold
        exact absurd hfold (foldl_updBest_ne_none p)
    have := filter_map_snd_idxL 0 l isCand
    rw [hnil] at this
    exact this.symm
  · intro h
    have hnil : (idxL 0 l).filter (fun p => isCand p.2) = [] := by
      have hmap := filter_map_snd_idxL 0 l isCand
      rw [h] at hmap
      exact List.map_eq_nil_iff.mp hmap
    simp [hnil]

theorem pickIdx_eq_some {l : List Col} {i : Nat} (h : pickIdx l = some i) :
    ∃ c, l.get? i = some c ∧ isCand c = true := by
  unfold pickIdx at h
  rcases hfold : ((idxL 0 l).filter (fun p => isCand p.2)).foldl updBest none
    with _ | q
  · simp [hfold] at h
  · rw [hfold] at h
    obtain rfl : q.1 = i := by simpa using h
    have hq : q ∈ (idxL 0 l).filter (fun p => isCand p.2) := by
      rcases hl : (idxL 0 l).filter (fun p => isCand p.2) with _ | ⟨p, ps⟩
      · rw [hl] at hfold; simp at hfold
      · rw [hl] at hfold
        simp only [List.foldl_cons, updBest] at hfold
        rcases foldl_updBest_some hfold with h1 | h1
        · rw [hl, h1]; exact List.mem_cons_self _ _
        · rw [hl]; exact List.mem_cons_of_mem _ h1
    have hcand : isCand q.2 = true := (List.mem_filter.mp hq).2
    have hmem : q ∈ idxL 0 l := (List.mem_filter.mp hq).1
    have := mem_idxL_get? hmem
    exact ⟨q.2, by simpa using this.2, hcand⟩

/-! ## Field preservation: the solver only ever flips `hidden` flags -/

theorem metas_setHidden (l : List Col) (i : Nat) (b : Bool) :
    (setHidden l i b).map Col.meta = l.map Col.meta := by
  induction l generalizing i with
  | nil => rfl
  | cons x xs ih =>
    cases i with
    | zero => simp [setHidden, updAt, Col.meta]
    | succ n => simpa [setHidden, updAt] using ih n

/-- Any state property preserved by unhiding a single position is an
invariant of the grow-phase fold. -/
theorem foldl_growStep_preserve {avail : Int} {P : List Col → Prop}
    (hP : ∀ l i, P l → P (setHidden l i false)) :
    ∀ (ord : List Nat) (acc : List Col × Bool), P acc.1 →
      P ((ord.foldl (growStep avail) acc).1) := by
  intro ord
  induction ord with
  | nil => intro acc h; exact h
  | cons i rest ih =>
    intro acc h
    simp only [List.foldl_cons]
    apply ih
    unfold growStep
    by_cases hfit : sumMin (setHidden acc.1 i false) ≤ avail
    · simpa [hfit] using hP acc.1 i h
    · simpa [hfit] using h

theorem metas_growPass (avail : Int) (l : List Col) :
    (growPass avail l).1.map Col.meta = l.map Col.meta := by
  unfold growPass
  exact @foldl_growStep_preserve avail (fun s => s.map Col.meta = l.map Col.meta)
    (fun s i h => by simp only []; rw [metas_setHidden]; exact h)
    (growOrder l) (l, false) rfl

theorem metas_growLoop (avail : Int) (fuel : Nat) (l : List Col) :
    (growLoop avail fuel l).map Col.meta = l.map Col.meta := by
  induction fuel generalizing l with
  | zero => rfl
  | succ n ih =>
    unfold growLoop
    rcases hp : growPass avail l with ⟨l1, changed⟩
    have hl1 : l1.map Col.meta = l.map Col.meta := by
      have := metas_growPass avail l
      rw [hp] at this
      exact this
    cases changed with
    | false => simpa using hl1
    | true => simp only [if_pos]; rw [ih l1, hl1]

theorem metas_shrinkLoop (avail : Int) (fuel : Nat) (l : List Col) :
    (shrinkLoop avail fuel l).map Col.meta = l.map Col.meta := by
  induction fuel generalizing l with
  | zero => rfl
  | succ n ih =>
    unfold shrinkLoop
    by_cases hgt : sumMin l > avail
    · rcases hpk : pickIdx l with _ | i
      · simp [hgt, hpk]
      · simp only [hgt, if_pos, hpk]
        rw [ih, metas_setHidden]
    · simp [hgt]

theorem metas_solveState (meta : List ColMeta) (avail : Int) :
    (solveState meta avail).map Col.meta = meta := by
  unfold solveState
  rw [metas_growLoop, metas_shrinkLoop]
  unfold initCols
  rw [List.map_map]
  have : (Col.meta ∘ fun c : ColMeta => Col.mk c.index c.min c.priority c.lock false) = id := by
    funext c
    rfl
  rw [this, List.map_id]

theorem isCand_spec {c : Col} (h : isCand c = true) :
    c.hidden = false ∧ c.lock = false ∧ c.index ≠ 0 := by
  simp only [isCand, Bool.and_eq_true, Bool.not_eq_true', bne_iff_ne] at h
  exact ⟨h.1.1, h.1.2, h.2⟩

theorem HidOK_initCols (meta : List ColMeta) : HidOK (initCols meta) := by
  intro c hc hhid
  unfold initCols at hc
  obtain ⟨m, _, rfl⟩ := List.mem_map.mp hc
  simp at hhid

theorem HidOK_setHidden_false {l : List Col} {i : Nat} (h : HidOK l) :
    HidOK (setHidden l i false) := by
  intro c hc hhid
  rcases mem_setHidden hc with hmem | ⟨y, _, rfl⟩
  · exact h c hmem hhid
  · simp at hhid

theorem HidOK_setHidden_cand {l : List Col} {i : Nat} {c0 : Col}
    (h : HidOK l) (hg : l.get? i = some c0) (hc0 : isCand c0 = true) :
    HidOK (setHidden l i true) := by
  intro c hc hhid
  rcases mem_setHidden hc with hmem | ⟨y, hy, rfl⟩
  · exact h c hmem hhid
  · have hy0 : y = c0 := by rw [hg] at hy; exact (Option.some.inj hy).symm
    subst hy0
    obtain ⟨_, h2, h3⟩ := isCand_spec hc0
    exact ⟨h2, h3⟩

theorem HidOK_growPass {avail : Int} {l : List Col} (h : HidOK l) :
    HidOK (growPass avail l).1 := by
  unfold growPass
  exact @foldl_growStep_preserve avail HidOK
    (fun s i hs => HidOK_setHidden_false hs) (growOrder l) (l, false) h

theorem HidOK_growLoop {avail : Int} {fuel : Nat} {l : List Col} (h : HidOK l) :
    HidOK (growLoop avail fuel l) := by
  induction fuel generalizing l with
  | zero => exact h
  | succ n ih =>
    unfold growLoop
    rcases hp : growPass avail l with ⟨l1, changed⟩
    have hl1 : HidOK l1 := by
      have := @HidOK_growPass avail l h
      rw [hp] at this
      exact this
    cases changed with
    | false => simpa using hl1
    | true => simp only [if_pos]; exact ih hl1

theorem HidOK_shrinkLoop {avail : Int} {fuel : Nat} {l : List Col} (h : HidOK l) :
    HidOK (shrinkLoop avail fuel l) := by
  induction fuel generalizing l with
  | zero => exact h
  | succ n ih =>
    unfold shrinkLoop
    by_cases hgt : sumMin l > avail
    · rcases hpk : pickIdx l with _ | i
      · simp only [hgt, if_pos, hpk]; exact h
      · simp only [hgt, if_pos, hpk]
        obtain ⟨c0, hg, hc0⟩ := pickIdx_eq_some hpk
        exact ih (HidOK_setHidden_cand h hg hc0)
    · simp only [hgt, if_neg, if_false]; exact h

theorem HidOK_solveState (meta : List ColMeta) (avail : Int) :
    HidOK (solveState meta avail) :=
  HidOK_growLoop (HidOK_shrinkLoop (HidOK_initCols meta))

/-- Claim C2.  Locked columns are never hidden: every index in the
hidden-set returned by `computeHiddenColumns` belongs to an input column
that is unlocked and is not the control column (index 0); consequently,
when column indices are distinct — as they always are for the
`columnsMeta` the controller builds — no column with `lock = true`
(which includes the control column and, via the caller's
`lock: c.index === 0 || c.priority === 1`, every priority-1 column) ever
appears in the hidden-set. -/
theorem locked_never_hidden (meta : List ColMeta) (avail : Int) :
    (∀ i ∈ computeHiddenColumns meta avail,
      i ≠ 0 ∧ ∃ c ∈ meta, c.index = i ∧ c.lock = false) ∧
    ((meta.map ColMeta.index).Nodup →
      ∀ c ∈ meta, c.lock = true → c.index ∉ computeHiddenColumns meta avail) ∧
    ((meta.map ColMeta.index).Nodup →
      ∀ c ∈ meta, c.index = 0 ∨ c.priority = 1 →
        c.index ∉ computeHiddenColumns (refitMeta meta) avail) := by
  have hgen : ∀ meta1 : List ColMeta, ∀ i ∈ computeHiddenColumns meta1 avail,
      i ≠ 0 ∧ ∃ c ∈ meta1, c.index = i ∧ c.lock = false := by
    intro meta1 i hi
    unfold computeHiddenColumns at hi
    obtain ⟨col, hcolmem, rfl⟩ := List.mem_map.mp hi
    have hcol : col ∈ solveState meta1 avail ∧ col.hidden = true :=
      ⟨(List.mem_filter.mp hcolmem).1, (List.mem_filter.mp hcolmem).2⟩
    obtain ⟨hlock, hidx⟩ := HidOK_solveState meta1 avail col hcol.1 hcol.2
    refine ⟨hidx, ⟨col.meta, ?_, rfl, hlock⟩⟩
    rw [← metas_solveState meta1 avail]
    exact List.mem_map.mpr ⟨col, hcol.1, rfl⟩
  refine ⟨hgen meta, ?_, ?_⟩
  · intro hnd c hc hlock hmem
    obtain ⟨hne, c', hc', hidx, hlock'⟩ := hgen meta c.index hmem
    have : c = c' := List.inj_on_of_nodup_map hnd hc hc' hidx.symm
    rw [this, hlock'] at hlock
    exact Bool.false_ne_true hlock
  · intro hnd c hc hpl hmem
    obtain ⟨hne, c', hc', hidx, hlock'⟩ := hgen (refitMeta meta) c.index hmem
    obtain ⟨c1, hc1, rfl⟩ := List.mem_map.mp hc'
    have hidx1 : c1.index = c.index := by simpa using hidx
    have hnd1 : ((refitMeta meta).map ColMeta.index).Nodup := by
      unfold refitMeta
      rw [List.map_map]
      exact hnd
    have hcc : c1 = c := List.inj_on_of_nodup_map hnd hc1 hc hidx1
    subst hcc
    simp only at hlock'
    rcases hpl with h0 | h1
    · rw [h0] at hlock'
      simp at hlock'
    · rw [h1] at hlock'
      simp at hlock'

/-- Witness for `locked_never_hidden` at scenario A of the spec. -/
theorem locked_never_hidden_witness :
    3 ∈ computeHiddenColumns scenarioCols 500 ∧
    (3 ≠ 0 ∧ ∃ c ∈ scenarioCols, c.index = 3 ∧ c.lock = false) :=
  ⟨by decide, (locked_never_hidden scenarioCols 500).1 3 (by decide)⟩

theorem hiddenCount_setHidden_false {l : List Col} {i : Nat} {c : Col}
    (hg : l.get? i = some c) (hc : c.hidden = true) :
    hiddenCount (setHidden l i false) + 1 = hiddenCount l := by
  induction l generalizing i with
  | nil => simp at hg
  | cons x xs ih =>
    cases i with
    | zero =>
      obtain rfl : x = c := by simpa using hg
      simp [hiddenCount, setHidden, updAt, List.countP_cons, hc]
    | succ n =>
      have hg2 : xs.get? n = some c := by simpa using hg
      have := ih hg2
      simp only [setHidden, updAt] at this ⊢
      simp only [hiddenCount, List.countP_cons] at this ⊢
      omega

theorem hiddenCount_setHidden_true_le (l : List Col) (i : Nat) :
    hiddenCount (setHidden l i true) ≤ hiddenCount l + 1 := by
  induction l generalizing i with
  | nil => simp [hiddenCount, setHidden, updAt]
  | cons x xs ih =>
    cases i with
    | zero =>
      simp only [setHidden, updAt, hiddenCount, List.countP_cons]
      by_cases hx : x.hidden = true <;> simp [hx]
    | succ n =>
      have := @ih n
      simp only [setHidden, updAt, hiddenCount, List.countP_cons] at this ⊢
      omega

theorem hiddenCount_initCols (meta : List ColMeta) :
    hiddenCount (initCols meta) = 0 := by
  unfold hiddenCount initCols
  rw [List.countP_eq_zero]
  intro c hc
  obtain ⟨m, _, rfl⟩ := List.mem_map.mp hc
  simp

theorem hiddenCount_shrinkLoop (avail : Int) (fuel : Nat) (l : List Col) :
    hiddenCount (shrinkLoop avail fuel l) ≤ hiddenCount l + fuel := by
  induction fuel generalizing l with
  | zero => simp [shrinkLoop]
  | succ n ih =>
    unfold shrinkLoop
    by_cases hgt : sumMin l > avail
    · rcases hpk : pickIdx l with _ | i
      · simp only [hgt, if_pos, hpk]
        omega
      · simp only [hgt, if_pos, hpk]
        have h1 := ih (setHidden l i true)
        have h2 := hiddenCount_setHidden_true_le l i
        omega
    · simp only [hgt, if_neg, if_false]
      omega

/-! Soundness and completeness of the grow-phase scan order. -/

theorem mem_insertLe {x a : Int × Int × Nat} {l : List (Int × Int × Nat)} :
    a ∈ insertLe x l ↔ a = x ∨ a ∈ l := by
  induction l with
  | nil => simp [insertLe]
  | cons y ys ih =>
    by_cases h : keyLe x y = true
    · simp [insertLe, h]
    · simp [insertLe, h, ih]
      tauto

theorem mem_sortLe {a : Int × Int × Nat} {l : List (Int × Int × Nat)} :
    a ∈ sortLe l ↔ a ∈ l := by
  induction l with
  | nil => simp [sortLe]
  | cons x xs ih => simp [sortLe, mem_insertLe, ih]

theorem insertLe_perm (x : Int × Int × Nat) (l : List (Int × Int × Nat)) :
    List.Perm (insertLe x l) (x :: l) := by
  induction l with
  | nil => rfl
  | cons y ys ih =>
    by_cases h : keyLe x y = true
    · simp [insertLe, h]
    · simp only [insertLe, h, if_neg, if_false]
      exact List.Perm.trans (List.Perm.cons y ih) (List.Perm.swap x y ys)

theorem sortLe_perm (l : List (Int × Int × Nat)) : List.Perm (sortLe l) l := by
  induction l with
  | nil => rfl
  | cons x xs ih =>
    exact List.Perm.trans (insertLe_perm x (sortLe xs)) (List.Perm.cons x ih)

theorem map_fst_idxL {α : Type} (n : Nat) (l : List α) :
    (idxL n l).map Prod.fst = List.range' n l.length := by
  induction l generalizing n with
  | nil => rfl
  | cons x xs ih => simp [idxL, List.range'_succ, ih]

theorem mem_growOrder_of_hidden {l : List Col} {i : Nat} {c : Col}
    (hg : l.get? i = some c) (hc : c.hidden = true) : i ∈ growOrder l := by
  have hmem : (i, c) ∈ idxL 0 l := by
    have := get?_mem_idxL hg 0
    simpa using this
  have hfil : (i, c) ∈ (idxL 0 l).filter (fun p => p.2.hidden) := by
    rw [List.mem_filter]
    exact ⟨hmem, by simpa using hc⟩
  have htr : (c.priority, c.min, i) ∈ hiddenTriples l :=
    List.mem_map.mpr ⟨(i, c), hfil, rfl⟩
  have hs : (c.priority, c.min, i) ∈ sortLe (hiddenTriples l) :=
    mem_sortLe.mpr htr
  exact List.mem_map.mpr ⟨(c.priority, c.min, i), hs, rfl⟩

theorem growOrder_sound {l : List Col} {i : Nat} (hi : i ∈ growOrder l) :
    ∃ c, l.get? i = some c ∧ c.hidden = true := by
  obtain ⟨t, ht, rfl⟩ := List.mem_map.mp hi
  have htr : t ∈ hiddenTriples l := mem_sortLe.mp ht
  obtain ⟨p, hp, rfl⟩ := List.mem_map.mp htr
  have hpm : p ∈ idxL 0 l := (List.mem_filter.mp hp).1
  have hph : p.2.hidden = true := by
    have := (List.mem_filter.mp hp).2
    simpa using this
  have := mem_idxL_get? hpm
  exact ⟨p.2, by simpa using this.2, hph⟩

theorem growOrder_nodup (l : List Col) : (growOrder l).Nodup := by
  unfold growOrder
  have hperm : List.Perm ((sortLe (hiddenTriples l)).map (fun t => t.2.2))
      ((hiddenTriples l).map (fun t => t.2.2)) :=
    List.Perm.map _ (sortLe_perm (hiddenTriples l))
  refine hperm.symm.nodup ?_
  unfold hiddenTriples
  rw [List.map_map]
  have heq : ((fun t : Int × Int × Nat => t.2.2) ∘
      fun p : Nat × Col => (p.2.priority, p.2.min, p.1)) = Prod.fst := by
    funext p
    rfl
  rw [heq]
  have hsub : List.Sublist (((idxL 0 l).filter (fun p => p.2.hidden)).map Prod.fst)
      ((idxL 0 l).map Prod.fst) :=
    List.Sublist.map _ (List.filter_sublist _)
  refine hsub.nodup ?_
  rw [map_fst_idxL]
  exact List.nodup_range' 0 l.length

theorem foldl_growStep_flag_mono (avail : Int) (ord : List Nat) :
    ∀ acc : List Col × Bool, acc.2 = true →
      (ord.foldl (growStep avail) acc).2 = true := by
  induction ord with
  | nil => intro acc h; exact h
  | cons i rest ih =>
    intro acc h
    simp only [List.foldl_cons]
    apply ih
    unfold growStep
    by_cases hfit : sumMin (setHidden acc.1 i false) ≤ avail
    · simp [hfit]
    · simpa [hfit] using h

/-- A scan that reports no change left the state untouched, and every
tentative unhide it tried failed the fit test against that state. -/
theorem foldl_growStep_false (avail : Int) :
    ∀ (ord : List Nat) (t t' : List Col),
      ord.foldl (growStep avail) (t, false) = (t', false) →
      t' = t ∧ ∀ i ∈ ord, ¬(sumMin (setHidden t i false) ≤ avail) := by
  intro ord
  induction ord with
  | nil =>
    intro t t' h
    simp only [List.foldl_nil] at h
    exact ⟨(congrArg Prod.fst h).symm, by simp⟩
  | cons i rest ih =>
    intro t t' h
    simp only [List.foldl_cons] at h
    by_cases hfit : sumMin (setHidden t i false) ≤ avail
    · exfalso
      have : (rest.foldl (growStep avail) (growStep avail (t, false) i)).2 = true := by
        apply foldl_growStep_flag_mono
        simp [growStep, hfit]
      rw [h] at this
      simp at this
    · have hstep : growStep avail (t, false) i = (t, false) := by
        simp [growStep, hfit]
      rw [hstep] at h
      obtain ⟨h1, h2⟩ := ih t t' h
      refine ⟨h1, ?_⟩
      intro j hj
      rcases List.mem_cons.mp hj with rfl | hj
      · exact hfit
      · exact h2 j hj

/-- During a scan the hidden count never grows, and a scan that reports a
change starting from an unchanged flag strictly shrank it.  The positions
scanned must be distinct positions of hidden columns, which
`growOrder` guarantees. -/
theorem foldl_growStep_count (avail : Int) :
    ∀ (ord : List Nat) (t : List Col) (b : Bool),
      ord.Nodup →
      (∀ i ∈ ord, ∃ c, t.get? i = some c ∧ c.hidden = true) →
      hiddenCount (ord.foldl (growStep avail) (t, b)).1 ≤ hiddenCount t ∧
      ((ord.foldl (growStep avail) (t, b)).2 = true →
        b = true ∨ hiddenCount (ord.foldl (growStep avail) (t, b)).1 < hiddenCount t) := by
  intro ord
  induction ord with
  | nil =>
    intro t b _ _
    exact ⟨le_refl _, fun h => Or.inl h⟩
  | cons i rest ih =>
    intro t b hnd hval
    have hndr : rest.Nodup := (List.nodup_cons.mp hnd).2
    have hnotin : i ∉ rest := (List.nodup_cons.mp hnd).1
    obtain ⟨c, hgc, hhc⟩ := hval i (List.mem_cons_self _ _)
    simp only [List.foldl_cons]
    by_cases hfit : sumMin (setHidden t i false) ≤ avail
    · have hstep : growStep avail (t, b) i = (setHidden t i false, true) := by
        simp [growStep, hfit]
      rw [hstep]
      have hvalr : ∀ j ∈ rest, ∃ c, (setHidden t i false).get? j = some c ∧ c.hidden = true := by
        intro j hj
        obtain ⟨cj, hgj, hhj⟩ := hval j (List.mem_cons_of_mem _ hj)
        refine ⟨cj, ?_, hhj⟩
        rw [setHidden, get?_updAt_ne]
        · exact hgj
        · intro hji
          exact hnotin (hji ▸ hj)
      obtain ⟨hle, _⟩ := ih (setHidden t i false) true hndr hvalr
      have hdec : hiddenCount (setHidden t i false) + 1 = hiddenCount t :=
        hiddenCount_setHidden_false hgc hhc
      exact ⟨by omega, fun _ => Or.inr (by omega)⟩
    · have hstep : growStep avail (t, b) i = (t, b) := by
        simp [growStep, hfit]
      rw [hstep]
      have hvalr : ∀ j ∈ rest, ∃ c, t.get? j = some c ∧ c.hidden = true :=
        fun j hj => hval j (List.mem_cons_of_mem _ hj)
      exact ih t b hndr hvalr

theorem growPass_false {avail : Int} {l l' : List Col}
    (h : growPass avail l = (l', false)) :
    l' = l ∧ ∀ i ∈ growOrder l, ¬(sumMin (setHidden l i false) ≤ avail) :=
  foldl_growStep_false avail (growOrder l) l l' h

theorem growPass_true_count {avail : Int} {l l' : List Col}
    (h : growPass avail l = (l', true)) : hiddenCount l' < hiddenCount l := by
  have hval : ∀ i ∈ growOrder l, ∃ c, l.get? i = some c ∧ c.hidden = true :=
    fun i hi => growOrder_sound hi
  have := foldl_growStep_count avail (growOrder l) l false (growOrder_nodup l) hval
  unfold growPass at h
  rw [h] at this
  rcases this.2 rfl with h1 | h1
  · exact absurd h1 (by simp)
  · exact h1

theorem minimal_of_no_hidden {avail : Int} {l : List Col}
    (h : hiddenCount l = 0) : Minimal avail l := by
  intro c hc hhid
  have := (List.countP_eq_zero.mp h) c hc
  simp [hhid] at this

theorem growLoop_minimal (avail : Int) :
    ∀ (fuel : Nat) (l : List Col), hiddenCount l ≤ fuel →
      Minimal avail (growLoop avail fuel l) := by
  intro fuel
  induction fuel with
  | zero =>
    intro l hl
    exact minimal_of_no_hidden (Nat.le_zero.mp hl)
  | succ n ih =>
    intro l hl
    unfold growLoop
    rcases hp : growPass avail l with ⟨l1, changed⟩
    cases changed with
    | false =>
      simp only [if_neg, if_false, Bool.false_eq_true]
      obtain ⟨heq, hfail⟩ := growPass_false hp
      rw [heq]
      intro c hc hhid
      obtain ⟨i, hgi⟩ := List.get?_of_mem hc
      have hio : i ∈ growOrder l := mem_growOrder_of_hidden hgi hhid
      have := hfail i hio
      rw [sumMin_setHidden_false hgi hhid] at this
      omega
    | true =>
      simp only [if_pos]
      have hlt : hiddenCount l1 < hiddenCount l := growPass_true_count hp
      exact ih l1 (by omega)

/-- Claim C3.  Minimality: every index in the hidden-set corresponds to a
hidden column of the final solver state, and restoring that column alone
(adding its min width back to the surviving sum) would exceed `available`
— the grow-back phase always reaches such a fixpoint. -/
theorem hidden_set_minimal (meta : List ColMeta) (avail : Int) :
    ∀ i ∈ computeHiddenColumns meta avail,
      ∃ c ∈ solveState meta avail, c.hidden = true ∧ c.index = i ∧
        avail < sumMin (solveState meta avail) + c.min := by
  intro i hi
  unfold computeHiddenColumns at hi
  obtain ⟨col, hcolmem, rfl⟩ := List.mem_map.mp hi
  have hmem : col ∈ solveState meta avail := (List.mem_filter.mp hcolmem).1
  have hhid : col.hidden = true := (List.mem_filter.mp hcolmem).2
  have hcnt : hiddenCount (shrinkLoop avail 200 (initCols meta)) ≤ 200 := by
    have h1 := hiddenCount_shrinkLoop avail 200 (initCols meta)
    rw [hiddenCount_initCols] at h1
    omega
  have hminimal : Minimal avail (solveState meta avail) :=
    growLoop_minimal avail 200 _ hcnt
  exact ⟨col, hmem, hhid, rfl, hminimal col hmem hhid⟩

/-- Witness for `hidden_set_minimal` at scenario A of the spec:
column C (index 3, min 130) is hidden and 500 < 406 + 130. -/
theorem hidden_set_minimal_witness :
    3 ∈ computeHiddenColumns scenarioCols 500 ∧
    ∃ c ∈ solveState scenarioCols 500, c.hidden = true ∧ c.index = 3 ∧
      (500 : Int) < sumMin (solveState scenarioCols 500) + c.min :=
  ⟨by decide, hidden_set_minimal scenarioCols 500 3 (by decide)⟩

theorem nonHideableSum_cons (c : Col) (cs : List Col) :
    nonHideableSum (c :: cs) =
      (if c.lock || c.index == 0 then c.min else 0) + nonHideableSum cs := by
  by_cases h : (c.lock || c.index == 0) = true <;> simp [nonHideableSum, List.filter_cons, h]

theorem nonHideableSum_setHidden (l : List Col) (i : Nat) (b : Bool) :
    nonHideableSum (setHidden l i b) = nonHideableSum l := by
  induction l generalizing i with
  | nil => rfl
  | cons x xs ih =>
    cases i with
    | zero =>
      simp only [setHidden, updAt]
      rw [nonHideableSum_cons, nonHideableSum_cons]
    | succ n =>
      simp only [setHidden, updAt] at ih ⊢
      rw [nonHideableSum_cons, nonHideableSum_cons, ih n]

theorem minsNonneg_setHidden {l : List Col} {i : Nat} {b : Bool}
    (h : ∀ c ∈ l, 0 ≤ c.min) : ∀ c ∈ setHidden l i b, 0 ≤ c.min := by
  intro c hc
  rcases mem_setHidden hc with hmem | ⟨y, hy, rfl⟩
  · exact h c hmem
  · exact h y (List.get?_mem hy)

/-- When no shrink candidate is left, every visible column is locked or
control, so the visible sum is bounded by the non-hideable sum. -/
theorem sumMin_le_nonHideable {l : List Col}
    (hmin : ∀ c ∈ l, 0 ≤ c.min)
    (hnc : ∀ c ∈ l, isCand c = false) :
    sumMin l ≤ nonHideableSum l := by
  induction l with
  | nil => simp [sumMin, nonHideableSum]
  | cons x xs ih =>
    rw [sumMin_cons, nonHideableSum_cons]
    have hmx : 0 ≤ x.min := hmin x (List.mem_cons_self _ _)
    have hncx : isCand x = false := hnc x (List.mem_cons_self _ _)
    have htail : sumMin xs ≤ nonHideableSum xs :=
      ih (fun c hc => hmin c (List.mem_cons_of_mem _ hc))
        (fun c hc => hnc c (List.mem_cons_of_mem _ hc))
    have hx : (if x.hidden then 0 else x.min) ≤ (if x.lock || x.index == 0 then x.min else 0) := by
      by_cases hh : x.hidden = true
      · simp only [hh, if_pos]
        by_cases hl : (x.lock || x.index == 0) = true <;> simp [hl, hmx]
      · have hvis : x.hidden = false := by simpa using hh
        have hor : (x.lock || x.index == 0) = true := by
          by_cases hl : x.lock = true
          · simp [hl]
          · have hl0 : x.lock = false := by simpa using hl
            simp [isCand, hvis, hl0] at hncx
            simp [hncx]
        simp [hvis, hor]
    omega

theorem candCount_setHidden_true {l : List Col} {i : Nat} {c : Col}
    (hg : l.get? i = some c) (hc : isCand c = true) :
    (setHidden l i true).countP isCand + 1 = l.countP isCand := by
  induction l generalizing i with
  | nil => simp at hg
  | cons x xs ih =>
    cases i with
    | zero =>
      have hxc : x = c := by simpa using hg
      subst hxc
      have hx : isCand { x with hidden := true } = false := by
        simp [isCand]
      simp [setHidden, updAt, List.countP_cons, hx, hc]
    | succ n =>
      have hg2 : xs.get? n = some c := by simpa using hg
      have := ih hg2
      simp only [setHidden, updAt, List.countP_cons] at this ⊢
      omega

/-- Shrink-phase correctness: with non-negative min widths, a
non-hideable sum that fits, and enough fuel for every candidate, the
shrink loop reaches a state whose visible sum fits. -/
theorem shrinkLoop_fit (avail : Int) :
    ∀ (fuel : Nat) (l : List Col),
      (∀ c ∈ l, 0 ≤ c.min) →
      nonHideableSum l ≤ avail →
      l.countP isCand ≤ fuel →
      sumMin (shrinkLoop avail fuel l) ≤ avail := by
  intro fuel
  induction fuel with
  | zero =>
    intro l hmin hnh hcnt
    have hnc : ∀ c ∈ l, isCand c = false := by
      intro c hc
      have := (List.countP_eq_zero.mp (Nat.le_zero.mp hcnt)) c hc
      simpa using this
    exact le_trans (sumMin_le_nonHideable hmin hnc) hnh
  | succ n ih =>
    intro l hmin hnh hcnt
    unfold shrinkLoop
    by_cases hgt : sumMin l > avail
    · rcases hpk : pickIdx l with _ | i
      · simp only [hgt, if_pos, hpk]
        have hnil : l.filter isCand = [] := pickIdx_eq_none.mp hpk
        have hnc : ∀ c ∈ l, isCand c = false := by
          intro c hc
          by_cases h : isCand c = true
          · exact absurd (List.mem_filter.mpr ⟨hc, h⟩) (by simp [hnil])
          · simpa using h
        exact le_trans (sumMin_le_nonHideable hmin hnc) hnh
      · simp only [hgt, if_pos, hpk]
        obtain ⟨c, hg, hc⟩ := pickIdx_eq_some hpk
        apply ih
        · exact minsNonneg_setHidden hmin
        · rw [nonHideableSum_setHidden]; exact hnh
        · have := candCount_setHidden_true hg hc
          omega
    · simp only [hgt, if_neg, if_false]
      omega

/-- A fitting state stays fitting through the grow phase: a tentative
unhide is only kept when the new sum still fits. -/
theorem foldl_growStep_fit (avail : Int) :
    ∀ (ord : List Nat) (acc : List Col × Bool), sumMin acc.1 ≤ avail →
      sumMin (ord.foldl (growStep avail) acc).1 ≤ avail := by
  intro ord
  induction ord with
  | nil => intro acc h; exact h
  | cons i rest ih =>
    intro acc h
    simp only [List.foldl_cons]
    apply ih
    unfold growStep
    by_cases hfit : sumMin (setHidden acc.1 i false) ≤ avail
    · simp [hfit]
    · simpa [hfit] using h

theorem growLoop_fit (avail : Int) :
    ∀ (fuel : Nat) (l : List Col), sumMin l ≤ avail →
      sumMin (growLoop avail fuel l) ≤ avail := by
  intro fuel
  induction fuel with
  | zero => intro l h; exact h
  | succ n ih =>
    intro l h
    unfold growLoop
    rcases hp : growPass avail l with ⟨l1, changed⟩
    have hl1 : sumMin l1 ≤ avail := by
      have := foldl_growStep_fit avail (growOrder l) (l, false) h
      unfold growPass at hp
      rw [hp] at this
      exact this
    cases changed with
    | false => simpa using hl1
    | true => simp only [if_pos]; exact ih l1 hl1

theorem nonHideableSum_initCols (meta : List ColMeta) :
    nonHideableSum (initCols meta) = nonHideableSumMeta meta := by
  induction meta with
  | nil => rfl
  | cons c cs ih =>
    simp only [initCols, List.map_cons] at ih ⊢
    rw [nonHideableSum_cons]
    by_cases h : (c.lock || c.index == 0) = true <;>
      simp [nonHideableSumMeta, List.filter_cons, h, ih, nonHideableSum_cons]

/-- The survivor sum of any legitimate hide mask (one that hides only
unlocked, non-control columns) dominates the non-hideable sum when all
min widths are non-negative. -/
theorem nonHideable_le_maskSurvivor (meta : List ColMeta) (mask : List Bool)
    (hlen : mask.length = meta.length)
    (hmask : ∀ p ∈ meta.zip mask, p.2 = true → p.1.lock = false ∧ p.1.index ≠ 0)
    (hmin : ∀ c ∈ meta, 0 ≤ c.min) :
    nonHideableSumMeta meta ≤ maskSurvivorSum meta mask := by
  induction meta generalizing mask with
  | nil => simp [nonHideableSumMeta, maskSurvivorSum]
  | cons c cs ih =>
    rcases mask with _ | ⟨b, bs⟩
    · simp at hlen
    · have hlen' : bs.length = cs.length := by simpa using hlen
      have hmask' : ∀ p ∈ cs.zip bs, p.2 = true → p.1.lock = false ∧ p.1.index ≠ 0 :=
        fun p hp => hmask p (List.mem_cons_of_mem _ hp)
      have hmin' : ∀ x ∈ cs, 0 ≤ x.min :=
        fun x hx => hmin x (List.mem_cons_of_mem _ hx)
      have htail := ih bs hlen' hmask' hmin'
      have hminc : 0 ≤ c.min := hmin c (List.mem_cons_self _ _)
      cases b with
      | true =>
        have hc : c.lock = false ∧ c.index ≠ 0 :=
          hmask (c, true) (by simp [List.zip_cons_cons]) rfl
        have hl : (c.lock || c.index == 0) = false := by
          simp [hc.1, hc.2]
        unfold nonHideableSumMeta maskSurvivorSum at htail ⊢
        simp only [List.zip_cons_cons, List.filter_cons, hl]
        simpa using htail
      | false =>
        unfold nonHideableSumMeta maskSurvivorSum at htail ⊢
        simp only [List.zip_cons_cons, List.filter_cons]
        by_cases hl : (c.lock || c.index == 0) = true <;> simp [hl] <;> omega

theorem minsNonneg_initCols {meta : List ColMeta}
    (h : ∀ c ∈ meta, 0 ≤ c.min) : ∀ c ∈ initCols meta, 0 ≤ c.min := by
  intro c hc
  obtain ⟨m, hm, rfl⟩ := List.mem_map.mp hc
  exact h m hm

theorem candCount_initCols (meta : List ColMeta) :
    (initCols meta).countP isCand =
      (meta.filter (fun c => !c.lock && c.index != 0)).length := by
  rw [← List.countP_eq_length_filter]
  unfold initCols
  rw [List.countP_map]
  congr 1

/-- Claim C1 (amended).  Fit guarantee: when every min width is
non-negative and at most 200 columns are hideable (unlocked and
non-control — the source's fixed loop guard is 200), if some legitimate
hide mask fits within `available`, then the state computed by
`computeHiddenColumns` leaves surviving columns whose min-width sum is
at most `available`. -/
theorem fit_guarantee (meta : List ColMeta) (avail : Int) (mask : List Bool)
    (hmin : ∀ c ∈ meta, 0 ≤ c.min)
    (hcount : (meta.filter (fun c => !c.lock && c.index != 0)).length ≤ 200)
    (hlen : mask.length = meta.length)
    (hmask : ∀ p ∈ meta.zip mask, p.2 = true → p.1.lock = false ∧ p.1.index ≠ 0)
    (hfit : maskSurvivorSum meta mask ≤ avail) :
    sumMin (solveState meta avail) ≤ avail := by
  have hnh : nonHideableSum (initCols meta) ≤ avail := by
    rw [nonHideableSum_initCols]
    exact le_trans (nonHideable_le_maskSurvivor meta mask hlen hmask hmin) hfit
  have hshrink : sumMin (shrinkLoop avail 200 (initCols meta)) ≤ avail := by
    apply shrinkLoop_fit avail 200 (initCols meta) (minsNonneg_initCols hmin) hnh
    rw [candCount_initCols]
    exact hcount
  exact growLoop_fit avail 200 _ hshrink

/-- Witness for `fit_guarantee` at scenario A of the spec: hiding C and D
fits 500, and so does the solver's own result. -/
theorem fit_guarantee_witness :
    sumMin (solveState scenarioCols 500) ≤ 500 :=
  fit_guarantee scenarioCols 500 [false, false, false, true, true]
    (by decide) (by decide) (by decide) (by decide) (by decide)

/-- Counterexample to claim C1 as stated: for `cexCols` and
`available = 9`, hiding just column 1 (unlocked, non-control) leaves a
survivor sum of 8 ≤ 9, yet the solver's result leaves a survivor sum of
12 > 9. -/
theorem fit_guarantee_cex :
    ([false, true, false, false] : List Bool).length = cexCols.length ∧
    (∀ p ∈ cexCols.zip [false, true, false, false],
      p.2 = true → p.1.lock = false ∧ p.1.index ≠ 0) ∧
    maskSurvivorSum cexCols [false, true, false, false] ≤ 9 ∧
    ¬(sumMin (solveState cexCols 9) ≤ 9) := by decide

/-- Claim C6 (amended).  Toggling a collapsed row while the hidden-set
derived from the header contains no non-control index is *not* a no-op:
provided the row has its toggle button and details row (and the default
renderer is in use), the call expands the row, rebuilds the panel
against the current hidden-set, and emits `expand` then `toggle`.  The
no-op behaviour only arises from the missing-button / missing-details
early returns. -/
theorem toggle_without_hidden_not_noop (opts : Opts) (s : Ctrl) (b r : Nat)
    (row : DataRow) (d : DetailsRow)
    (hrender : opts.detailsRender = none)
    (hnohid : ∀ i ∈ headerHiddenSet s, i = 0)
    (hrow : getRow s b r = some row)
    (hbtn : row.hasBtn = true)
    (hexp : row.btnExpanded = false)
    (hdet : row.details = some d) :
    toggle opts s b r =
      .ok (setRow s b r (expandedRow s row d), [.expandEv, .toggleEv true]) := by
  unfold toggle
  rw [hrow]
  simp [hbtn, hexp, hdet, renderDetailsForRow, hrender, expandedRow, expandedDetails]

/-- Witness for `toggle_without_hidden_not_noop` on `exToggleCtrl`. -/
theorem toggle_without_hidden_not_noop_witness :
    toggle exOpts exToggleCtrl 0 0 =
      .ok (setRow exToggleCtrl 0 0 (expandedRow exToggleCtrl exToggleRow ⟨true, .empty, 2⟩),
        [.expandEv, .toggleEv true]) :=
  toggle_without_hidden_not_noop exOpts exToggleCtrl 0 0 exToggleRow
    ⟨true, .empty, 2⟩ rfl (by decide) rfl rfl rfl rfl

/-- Counterexample to claim C6 as stated: on `exToggleCtrl` the
hidden-set contains no non-control index, yet `toggle` changes the
row's expansion state and emits `expand` and `toggle`. -/
theorem toggle_without_hidden_noop_cex :
    (∀ i ∈ headerHiddenSet exToggleCtrl, i = 0) ∧
    toggle exOpts exToggleCtrl 0 0 = .ok (exToggleAfter, [.expandEv, .toggleEv true]) ∧
    exToggleAfter ≠ exToggleCtrl :=
  ⟨by decide, rfl, by decide⟩

/-! ### Claim C7: caller-supplied renderer failures -/

/-- Claim C7 (amended).  A custom renderer returning an unusable value
(neither a `Node` nor a string) is isolated: the panel falls back to the
default rendering for that call. -/
theorem renderer_unusable_falls_back (opts : Opts) (s : Ctrl) (row : DataRow)
    (d : DetailsRow) (hs : List Nat)
    (f : DataRow → List ColMeta → List Cell → RenderOutcome)
    (hf : opts.detailsRender = some f)
    (hun : f row (hiddenColsOf s hs) row.cells = .unusable) :
    renderDetailsForRow opts s row d hs =
      .ok { d with content := .defaultList (defaultItems s hs row.cells) } := by
  simp only [renderDetailsForRow, hf, hun]

/-- Witness for `renderer_unusable_falls_back`. -/
theorem renderer_unusable_falls_back_witness :
    renderDetailsForRow unusableOpts exToggleCtrl exToggleRow ⟨true, .empty, 2⟩ [] =
      .ok { (⟨true, .empty, 2⟩ : DetailsRow) with
        content := .defaultList (defaultItems exToggleCtrl [] exToggleRow.cells) } :=
  renderer_unusable_falls_back unusableOpts exToggleCtrl exToggleRow
    ⟨true, .empty, 2⟩ [] _ rfl rfl

/-- Counterexample to claim C7 as stated: a throwing renderer's
exception propagates out of `_renderDetailsForRow` and aborts the
surrounding toggle pass instead of falling back. -/
theorem renderer_throw_propagates_cex :
    renderDetailsForRow throwingOpts exToggleCtrl exToggleRow ⟨true, .empty, 2⟩
      (headerHiddenSet exToggleCtrl) = .error "boom" ∧
    toggle throwingOpts exToggleCtrl 0 0 = .error "boom" :=
  ⟨rfl, rfl⟩

/-! ### Claim C8: attachment failure atomicity -/

/-- Claim C8 (amended).  A fresh attachment to a table lacking a header
(or with an empty header) or lacking a body section fails synchronously
and registers no controller, and the failure makes no structural change
— but the table is *not* left fully unmodified: the root class and the
inline width / table-layout styles applied before validation remain. -/
theorem attach_failure_leaves_styles (reg : List (Nat × Ctrl)) (tid : Nat)
    (opts : Opts) (env : Nat → Int) (avail : Int) (t : HTable)
    (hbad : t.theadRows = none ∨ t.theadRows = some [] ∨ t.tbodies = []) :
    ∃ msg, setFresh reg tid opts env avail t =
      (reg, .error (msg, { t with
        rootClass := true,
        styleWidth := some (t.styleWidth.getD "100%"),
        styleTableLayout := some (t.styleTableLayout.getD opts.tableLayout) })) := by
  rcases hth : t.theadRows with _ | rows
  · exact ⟨"CollapseTable: table <thead> with at least one <tr> is required.",
      by simp [setFresh, initOnce, hth]⟩
  · rcases rows with _ | ⟨hr, rest⟩
    · exact ⟨"CollapseTable: table <thead> with at least one <tr> is required.",
        by simp [setFresh, initOnce, hth]⟩
    · have htb : t.tbodies = [] := by
        rcases hbad with h | h | h
        · rw [hth] at h; cases h
        · rw [hth] at h; cases h
        · exact h
      exact ⟨"CollapseTable: table <tbody> is required.",
        by simp [setFresh, initOnce, hth, htb]⟩

/-- Witness for `attach_failure_leaves_styles` on `noHeadTable`. -/
theorem attach_failure_leaves_styles_witness :
    ∃ msg, setFresh [] 7 exOpts (fun _ => 100) 500 noHeadTable =
      ([], .error (msg, { noHeadTable with
        rootClass := true,
        styleWidth := some (noHeadTable.styleWidth.getD "100%"),
        styleTableLayout := some (noHeadTable.styleTableLayout.getD exOpts.tableLayout) })) :=
  attach_failure_leaves_styles [] 7 exOpts (fun _ => 100) 500 noHeadTable (Or.inl rfl)

/-- Counterexample to claim C8 as stated: the failed attachment throws
and registers nothing, but the table it leaves behind differs from the
input (root class and inline styles were applied before validation). -/
theorem attach_mutates_table_cex :
    setFresh [] 0 exOpts (fun _ => 100) 500 noHeadTable =
      ([], .error ("CollapseTable: table <thead> with at least one <tr> is required.",
        noHeadAfter)) ∧
    noHeadAfter ≠ noHeadTable :=
  ⟨rfl, by decide⟩

/-! ### Claim C9: destroy idempotence -/

/-- Claim C9: the code violates it.  `destroy` never checks
`_destroyed`: a second call on a controller that inserted the control
column deletes the leading cell of the header row and of every data row
again — now an original user cell — and emits another `destroy` event. -/
theorem destroy_second_call_mutates :
    (destroy exDestroyCtrl).2 = [.destroyEv] ∧
    (destroy (destroy exDestroyCtrl).1).2 = [.destroyEv] ∧
    (destroy exDestroyCtrl).1.headerCells.length = 1 ∧
    (destroy (destroy exDestroyCtrl).1).1.headerCells.length = 0 ∧
    (destroy (destroy exDestroyCtrl).1).1 ≠ (destroy exDestroyCtrl).1 := by
  refine ⟨by decide, by decide, by decide, by decide, by decide⟩

/-! ### Claim C10: row resolution at the public interface -/

/-! Spot checks of the `Number(string)` model against the JavaScript
results, including the integer-valued decimal-point, exponent and
non-decimal syntaxes that resolve real rows. -/

example : parseJsNumber "" = .int 0 := by decide
example : parseJsNumber "   " = .int 0 := by decide
example : parseJsNumber "12" = .int 12 := by decide
example : parseJsNumber " -7 " = .int (-7) := by decide
example : parseJsNumber "2.0" = .int 2 := by decide
example : parseJsNumber "1." = .int 1 := by decide
example : parseJsNumber ".0" = .int 0 := by decide
example : parseJsNumber "1e2" = .int 100 := by decide
example : parseJsNumber "+.5e1" = .int 5 := by decide
example : parseJsNumber "100e-2" = .int 1 := by decide
example : parseJsNumber "0x0" = .int 0 := by decide
example : parseJsNumber "0X1A" = .int 26 := by decide
example : parseJsNumber "0o17" = .int 15 := by decide
example : parseJsNumber "0b101" = .int 5 := by decide
example : parseJsNumber "2.5" = .nonIntFinite := by decide
example : parseJsNumber "1e-1" = .nonIntFinite := by decide
example : parseJsNumber "Infinity" = .posInf := by decide
example : parseJsNumber "-Infinity" = .negInf := by decide
example : parseJsNumber "abc" = .nan := by decide
example : parseJsNumber "." = .nan := by decide
example : parseJsNumber "1e" = .nan := by decide
example : parseJsNumber "0x" = .nan := by decide
example : parseJsNumber "-0x1" = .nan := by decide
example : parseJsNumber "1_0" = .nan := by decide
example : parseJsNumber "12px" = .nan := by decide

/-! With the grammar modelled, a string such as `"0x0"` coerces to `0`
and `expandRow` acts on row 0, exactly as in the program. -/

example : expandRowOp exOpts exToggleCtrl (JVal.str "0x0") =
    .ok (exToggleAfter, [.expandEv, .toggleEv true]) := rfl
example : expandRowOp exOpts exToggleCtrl (JVal.str "0.0") =
    .ok (exToggleAfter, [.expandEv, .toggleEv true]) := rfl
example : expandRowOp exOpts exToggleCtrl (JVal.str "0.5") = .ok (exToggleCtrl, []) := rfl
example : expandRowOp exOpts exToggleCtrl (JVal.str "2.0") = .ok (exToggleCtrl, []) := rfl
example : expandRowOp exOpts exToggleCtrl (JVal.str "1e2") = .ok (exToggleCtrl, []) := rfl

theorem resolve_none_of_bad {s : Ctrl} {o : JsNum}
    (hbad : ∀ i, o = JsNum.int i → i < 0 ∨ (allRowAddrs s).length ≤ i.toNat) :
    resolveByIndex s o = none := by
  cases o with
  | nan => rfl
  | posInf => rfl
  | negInf => rfl
  | nonIntFinite => rfl
  | int i =>
    unfold resolveByIndex
    rcases hbad i rfl with h | h
    · simp [h]
    · have hg : (allRowAddrs s).get? i.toNat = none := List.get?_eq_none.mpr h
      simp [hg]
      exact fun _ => h

theorem resolveDataRow_none {s : Ctrl} {v : JVal}
    (hnotrow : ∀ b r, v ≠ JVal.rowEl b r)
    (hbad : ∀ i, jsToNumber v = JsNum.int i → i < 0 ∨ (allRowAddrs s).length ≤ i.toNat) :
    resolveDataRow s v = none := by
  cases v with
  | rowEl b r => exact absurd rfl (hnotrow b r)
  | num n => simp only [resolveDataRow]; exact resolve_none_of_bad hbad
  | str st => simp only [resolveDataRow]; exact resolve_none_of_bad hbad
  | jsNull => simp only [resolveDataRow]; exact resolve_none_of_bad hbad
  | undef => simp only [resolveDataRow]; exact resolve_none_of_bad hbad
  | boolV bv => simp only [resolveDataRow]; exact resolve_none_of_bad hbad

theorem except_bind_ok {ε α β : Type} (a : α) (g : α → Except ε β) :
    ((Except.ok a : Except ε α) >>= g) = g a := rfl

theorem except_bind_err {ε α β : Type} (e : ε) (g : α → Except ε β) :
    ((Except.error e : Except ε α) >>= g) = Except.error e := rfl

theorem mapM_except_ok_mem {α β : Type} {f : α → Except String β} :
    ∀ {l : List α} {l2 : List β}, l.mapM f = .ok l2 →
      ∀ y ∈ l2, ∃ x ∈ l, f x = .ok y := by
  intro l
  induction l with
  | nil =>
    intro l2 h y hy
    rw [List.mapM_nil] at h
    have : l2 = [] := (Except.ok.inj h).symm
    subst this
    simp at hy
  | cons x xs ih =>
    intro l2 h y hy
    rw [List.mapM_cons] at h
    rcases hfx : f x with e | b
    · rw [hfx, except_bind_err] at h
      exact Except.noConfusion h
    · rw [hfx, except_bind_ok] at h
      rcases hxs : xs.mapM f with e2 | bs
      · rw [hxs, except_bind_err] at h
        exact Except.noConfusion h
      · rw [hxs, except_bind_ok] at h
        have hl2 : b :: bs = l2 := Except.ok.inj h
        rw [← hl2] at hy
        rcases List.mem_cons.mp hy with rfl | hmem
        · exact ⟨x, List.mem_cons_self _ _, hfx⟩
        · obtain ⟨x1, hx1, hfx1⟩ := ih hxs y hmem
          exact ⟨x1, List.mem_cons_of_mem _ hx1, hfx1⟩

theorem updateRowBtn_ok_cells {opts : Opts} {s : Ctrl} {anyHidden : Bool}
    {hs : List Nat} {row1 row2 : DataRow}
    (h : updateRowBtn opts s anyHidden hs row1 = .ok row2) :
    row2.cells = row1.cells := by
  unfold updateRowBtn at h
  by_cases hb : (!row1.hasBtn) = true
  · rw [if_pos hb] at h
    rw [← Except.ok.inj h]
  · rw [if_neg hb] at h
    simp only at h
    rcases hd : row1.details with _ | d
    · simp only [hd] at h
      rw [← Except.ok.inj h]

    · simp only [hd] at h
      by_cases hc : (!d.hidden && row1.btnExpanded) = true
      · rw [if_pos hc] at h
        split at h
        · exact Except.noConfusion h
        · rw [← Except.ok.inj h]
      · rw [if_neg hc] at h
        rw [← Except.ok.inj h]

theorem updateRowToggles_ok_cells {opts : Opts} {s : Ctrl} {anyHidden : Bool}
    {hs : List Nat} {row row2 : DataRow}
    (h : updateRowToggles opts s anyHidden hs row = .ok row2) :
    row2.cells = updAt row.cells 0 (fun c => { c with hideCls := !anyHidden }) :=
  updateRowBtn_ok_cells h

theorem updateTogglesVisibility_ok {opts : Opts} {anyHidden : Bool} {hs : List Nat}
    {s s2 : Ctrl} (h : updateTogglesVisibility opts anyHidden hs s = .ok s2) :
    s2.headerCells = (hideCtrlHeader anyHidden s).headerCells ∧
    ∀ tb2 ∈ s2.tbodies, ∀ row2 ∈ tb2, ∃ row1,
      updateRowToggles opts (hideCtrlHeader anyHidden s) anyHidden hs row1 = .ok row2 := by
  unfold updateTogglesVisibility at h
  simp only [] at h
  rcases hm : (hideCtrlHeader anyHidden s).tbodies.mapM
      (fun (tb : List DataRow) => tb.mapM
        (updateRowToggles opts (hideCtrlHeader anyHidden s) anyHidden hs)) with e | tbs
  · rw [hm] at h
    exact Except.noConfusion h
  · rw [hm] at h
    have hs2 : _ = s2 := Except.ok.inj h
    constructor
    · rw [← hs2]
    · intro tb2 htb2 row2 hrow2
      rw [← hs2] at htb2
      simp only at htb2
      obtain ⟨tb1, _, htb1⟩ := mapM_except_ok_mem hm tb2 htb2
      obtain ⟨row1, _, hrow1⟩ := mapM_except_ok_mem htb1 row2 hrow2
      exact ⟨row1, hrow1⟩

theorem not_any_ne_iff (hs : List Nat) :
    ((!hs.any (fun i => i != 0)) = true) ↔ ∀ i ∈ hs, i = 0 := by
  simp

/-- Claim C5.  Control-column visibility rule: after a successful refit
pass, the header's control cell and the control cell of every data row
carry the hide marker exactly when the hidden-set computed for that
pass contains no non-control index. -/
theorem control_column_visibility (opts : Opts) (s : Ctrl) (avail : Int)
    (initial : Bool) (s2 : Ctrl) (evs : List Ev)
    (hspan : s.unsupportedSpan = false)
    (href : refit opts s avail initial = .ok (s2, evs)) :
    (∀ c0, s2.headerCells.get? 0 = some c0 →
      (c0.hideCls = true ↔
        ∀ i ∈ computeHiddenColumns (refitMeta s.columnsMeta) avail, i = 0)) ∧
    (∀ tb ∈ s2.tbodies, ∀ row ∈ tb, ∀ c0, row.cells.get? 0 = some c0 →
      (c0.hideCls = true ↔
        ∀ i ∈ computeHiddenColumns (refitMeta s.columnsMeta) avail, i = 0)) := by
  unfold refit at href
  rw [hspan] at href
  simp only [Bool.false_eq_true, if_false] at href
  rcases hupd : updateTogglesVisibility opts
      ((computeHiddenColumns (refitMeta s.columnsMeta) avail).any (fun i => i != 0))
      (computeHiddenColumns (refitMeta s.columnsMeta) avail)
      (applyVisibility (computeHiddenColumns (refitMeta s.columnsMeta) avail) s)
      with e | s3
  · rw [hupd] at href
    exact Except.noConfusion href
  · rw [hupd] at href
    have hpair := Except.ok.inj href
    have hs3 : s3 = s2 := congrArg Prod.fst hpair
    rw [hs3] at hupd
    obtain ⟨hhead, hrows⟩ := updateTogglesVisibility_ok hupd
    rw [hideCtrlHeader] at hhead
    simp only at hhead
    have hAny : ∀ c0 : Cell,
        c0.hideCls = !((computeHiddenColumns (refitMeta s.columnsMeta) avail).any (fun i => i != 0)) →
        (c0.hideCls = true ↔
          ∀ i ∈ computeHiddenColumns (refitMeta s.columnsMeta) avail, i = 0) := by
      intro c0 hc0
      rw [hc0]
      exact not_any_ne_iff _
    constructor
    · intro c0 hc0
      rw [hhead, get?_updAt_self] at hc0
      rcases hg : (applyVisibility (computeHiddenColumns (refitMeta s.columnsMeta) avail) s).headerCells.get? 0
        with _ | c
      · rw [hg] at hc0
        exact Option.noConfusion hc0
      · rw [hg] at hc0
        have : c0 = { c with hideCls := !((computeHiddenColumns (refitMeta s.columnsMeta) avail).any (fun i => i != 0)) } :=
          (Option.some.inj hc0).symm
        exact hAny c0 (by rw [this])
    · intro tb htb row hrow c0 hc0
      obtain ⟨row1, hrow1⟩ := hrows tb htb row hrow
      have hcells := updateRowToggles_ok_cells hrow1
      rw [hcells, get?_updAt_self] at hc0
      rcases hg : row1.cells.get? 0 with _ | c
      · rw [hg] at hc0
        exact Option.noConfusion hc0
      · rw [hg] at hc0
        have : c0 = { c with hideCls := !((computeHiddenColumns (refitMeta s.columnsMeta) avail).any (fun i => i != 0)) } :=
          (Option.some.inj hc0).symm
        exact hAny c0 (by rw [this])

/-- Witness for `control_column_visibility`: a two-column table at
width 100 hides column 1, so the control column stays visible. -/
theorem control_column_visibility_witness :
    ∃ p : Ctrl × List Ev, refit exOpts exToggleCtrl 100 false = .ok p ∧
      ∀ c0, p.1.headerCells.get? 0 = some c0 →
        (c0.hideCls = true ↔
          ∀ i ∈ computeHiddenColumns (refitMeta exToggleCtrl.columnsMeta) 100, i = 0) := by
  rcases hE : refit exOpts exToggleCtrl 100 false with e | p
  · have hok : (refit exOpts exToggleCtrl 100 false).toOption.isSome = true := by decide
    rw [hE] at hok
    simp [Except.toOption] at hok
  · exact ⟨p, rfl, (control_column_visibility exOpts exToggleCtrl 100 false p.1 p.2 rfl
      (by rw [hE])).1⟩

end CollapseTable
